import Mathlib

/-!
Shallow embedding of the slab-pool allocator (`slab_pool.go`, package `gos`).

The pool source (`slab_pool.go`) is embedded faithfully.  The `slab`
component itself (`newSlab`, `addObj`, `bitSet`, `getObjByIdx`, `addr`,
`getTotalLength`) is not part of the provided source tree, so it is
modelled from the specification (§4.1 of the spec): fixed-capacity,
bitmap-tracked storage, first-fit slot choice, stable base address,
zero-initialized backing memory.

Addresses are natural numbers.  Memory allocation (`newSlab` obtaining a
fresh mapped region) is nondeterministic in reality, so the allocator's
choice is passed in explicitly: `Option Nat` is the base address the
mapping call would return, `none` standing for a mapping failure.
Likewise `syscall.Munmap`'s success is a Boolean parameter of
`deleteSlab`.
-/

/-- Modelled from the spec: the Slab component (its Go source is not under
`src/`; only `slab_pool.go` is).  A slab holds `objsPerSlab` slots of
`objSize` bytes each, an occupancy bitmap (`bits`, one Bool per slot) and
the slot contents (`data`), at a stable base address `base`. -/
structure Slab where
  base : Nat
  objSize : Nat
  objsPerSlab : Nat
  bits : List Bool
  data : List (List Nat)
  deriving Repr, DecidableEq

/-- Default slab used for out-of-range list reads in the embedding. -/
def defaultSlab : Slab := ⟨0, 0, 0, [], []⟩

instance : Inhabited Slab := ⟨defaultSlab⟩

/-- Modelled from the spec: `slab.addr()`, the slab's stable base address,
used as sort and identity key. -/
def Slab.addr (sl : Slab) : Nat := sl.base

/-- Modelled from the spec: byte offset of the object storage inside the
mapped region ("bitmap-adjacent object storage"): the bitmap occupies one
bit per slot, rounded up to whole bytes. -/
def dataOffset (objsPerSlab : Nat) : Nat := (objsPerSlab + 7) / 8

/-- Address of slot `i` inside a slab: base, then the bitmap bookkeeping,
then `i` object-sized slots.  This is the ObjAddr returned for slot `i`. -/
def Slab.slotAddr (sl : Slab) (i : Nat) : Nat :=
  sl.base + dataOffset sl.objsPerSlab + i * sl.objSize

/-- Modelled from the spec: `newSlab(objSize, objsPerSlab)` maps a fresh
zero-initialized region at base address `base` (the allocator's choice)
with an empty occupancy bitmap. -/
def newSlab (objSize objsPerSlab base : Nat) : Slab :=
  { base := base
    objSize := objSize
    objsPerSlab := objsPerSlab
    bits := List.replicate objsPerSlab false
    data := List.replicate objsPerSlab (List.replicate objSize 0) }

/-- Modelled from the spec: `slab.addObj(bytes)` scans slots for the first
unset bitmap bit (first-fit, lowest index wins); if found it stores the
bytes there, sets the bit and returns the slot's address; with no free
slot it returns failure (`none`) and does not mutate. -/
def Slab.addObj (sl : Slab) (obj : List Nat) : Option (Nat × Slab) :=
  match sl.bits.findIdx? (fun b => !b) with
  | none => none
  | some i =>
      some (sl.slotAddr i,
        { sl with bits := sl.bits.set i true, data := sl.data.set i obj })

/-- Spec-level description of a slab with at least one free slot (an unset
occupancy bit). -/
def Slab.hasFreeSlot (sl : Slab) : Prop :=
  ∃ i, i < sl.bits.length ∧ sl.bits.getD i true = false

instance (sl : Slab) : Decidable sl.hasFreeSlot := by
  unfold Slab.hasFreeSlot; infer_instance

/-- Embedding of Go's `sort.Search` loop body: binary search on `[i, j)`,
halving with `h = (i+j)/2`, moving `i` past `h` when `f h` is false and
`j` down to `h` when it is true. -/
def sortSearchAux (f : Nat → Bool) (i j : Nat) : Nat :=
  if i < j then
    let h := (i + j) / 2
    if f h then sortSearchAux f i h else sortSearchAux f (h + 1) j
  else i
termination_by j - i
decreasing_by
  all_goals omega

/-- Embedding of `sort.Search(n, f)`: the full-range call of the loop. -/
def sortSearch (n : Nat) (f : Nat → Bool) : Nat := sortSearchAux f 0 n

/-- The pool struct `slabPool`: slab list plus the shared object size and
per-slab capacity. -/
structure SlabPool where
  slabs : List Slab
  objSize : Nat
  objsPerSlab : Nat
  deriving Repr, DecidableEq

/-- Embedding of `NewSlabPool`. -/
def NewSlabPool (objSize objsPerSlab : Nat) : SlabPool :=
  { slabs := [], objSize := objSize, objsPerSlab := objsPerSlab }

/-- Embedding of `findSlabByAddr`: binary search for the first index whose
slab base address is `≤ obj`. -/
def SlabPool.findSlabByAddr (s : SlabPool) (obj : Nat) : Nat :=
  sortSearch s.slabs.length (fun i => decide ((s.slabs.getD i defaultSlab).addr ≤ obj))

/-- Insertion position used by `addSlab`: first index whose slab base
address is `< newSlabAddr` (keeping the list sorted descending). -/
def SlabPool.insertPos (s : SlabPool) (newSlabAddr : Nat) : Nat :=
  sortSearch s.slabs.length (fun i => decide ((s.slabs.getD i defaultSlab).addr < newSlabAddr))

/-- Embedding of `addSlab`: create a slab via `newSlab` (the allocator
returning base `b` on `some b`, failing on `none`) and splice it into the
slab list at the insertion position. -/
def SlabPool.addSlab (s : SlabPool) (alloc : Option Nat) : Option (Slab × SlabPool) :=
  match alloc with
  | none => none
  | some b =>
      let addedSlab := newSlab s.objSize s.objsPerSlab b
      some (addedSlab,
        { s with slabs := s.slabs.insertIdx (s.insertPos addedSlab.addr) addedSlab })

/-- The two error values `add` can return: the propagated `newSlab`
failure, and the distinct `fmt.Errorf` for an object rejected by a
freshly created slab. -/
inductive AddErr where
  | allocFailed
  | addToNewSlabFailed
  deriving Repr, DecidableEq

/-- The `for _, currentSlab = range s.slabs` loop of `add`: try `addObj`
on each slab in list order, returning the first success together with the
updated slab list (the successful slab is mutated in place). -/
def addLoop (obj : List Nat) : List Slab → Option (Nat × List Slab)
  | [] => none
  | sl :: rest =>
      match sl.addObj obj with
      | some (a, sl') => some (a, sl' :: rest)
      | none =>
          match addLoop obj rest with
          | some (a, rest') => some (a, sl :: rest')
          | none => none

/-- Embedding of `add`.  Result: the Go triple `(ObjAddr, SlabAddr, error)`
paired with the pool state after the call.  When a new slab is created and
accepts the object, the inserted slab is mutated through the pointer
`currentSlab`, embedded here as `List.set` at the insertion position. -/
def SlabPool.add (s : SlabPool) (alloc : Option Nat) (obj : List Nat) :
    (Nat × Nat × Option AddErr) × SlabPool :=
  match addLoop obj s.slabs with
  | some (a, slabs') => ((a, 0, none), { s with slabs := slabs' })
  | none =>
      match s.addSlab alloc with
      | none => ((0, 0, some AddErr.allocFailed), s)
      | some (addedSlab, s') =>
          match addedSlab.addObj obj with
          | none => ((0, 0, some AddErr.addToNewSlabFailed), s')
          | some (a, sl') =>
              ((a, addedSlab.addr, none),
                { s' with slabs := s'.slabs.set (s.insertPos addedSlab.addr) sl' })

/-- Byte comparison used by `search`: compare the first `objSize` bytes of
a stored slot against the target (out-of-range reads default to 0; in a
well-formed pool every stored row has exactly `objSize` bytes). -/
def bytesMatch (stored target : List Nat) (objSize : Nat) : Bool :=
  (List.range objSize).all (fun j => stored.getD j 0 == target.getD j 0)

/-- One slab's slot predicate in `search`: occupancy bit set (the bitset's
`Test` returns false out of range) and bytes equal. -/
def slotMatches (sl : Slab) (objSize : Nat) (target : List Nat) (i : Nat) : Bool :=
  sl.bits.getD i false && bytesMatch (sl.data.getD i []) target objSize

/-- The inner slot loop of `search` over one slab (`for i := uint(0); i <
s.objsPerSlab; i++`): scan slots from `i` upward, return the first
matching occupied slot's address. -/
def slabScan (sl : Slab) (objSize : Nat) (target : List Nat) (c i : Nat) : Option Nat :=
  if i < c then
    if slotMatches sl objSize target i then some (sl.slotAddr i)
    else slabScan sl objSize target c (i + 1)
  else none
termination_by c - i
decreasing_by all_goals omega

/-- The full slot loop of `search` over one slab, from slot 0. -/
def Slab.searchSlab (sl : Slab) (objsPerSlab objSize : Nat) (target : List Nat) : Option Nat :=
  slabScan sl objSize target objsPerSlab 0

/-- The outer slab loop of `search`: slabs in list order. -/
def searchSlabs (objsPerSlab objSize : Nat) (target : List Nat) : List Slab → Option Nat
  | [] => none
  | sl :: rest =>
      match sl.searchSlab objsPerSlab objSize target with
      | some a => some a
      | none => searchSlabs objsPerSlab objSize target rest

/-- Embedding of `search`: a length check, then the linear scan.  `none`
embeds the Go result `(0, false)`, `some a` embeds `(a, true)`. -/
def SlabPool.search (s : SlabPool) (searching : List Nat) : Option Nat :=
  if searching.length ≠ s.objSize then none
  else searchSlabs s.objsPerSlab s.objSize searching s.slabs

/-- Byte comparison loop used by `searchBatched` (`for l := 0; l < objSize;
l++ ...`): it indexes the searched object without any length check, so it
can run past the end of a short target.  `some true` is a match, `some
false` a mismatch, `none` an out-of-range access (a Go panic). -/
def cmpGoAux (stored target : List Nat) : Nat → Nat → Option Bool
  | 0, _ => some true
  | fuel + 1, l =>
      match target[l]? with
      | none => none
      | some t =>
          if stored.getD l 0 = t then cmpGoAux stored target fuel (l + 1) else some false

/-- Entry point of the comparison loop: `objSize - l` iterations remain
when starting at index `l`. -/
def cmpGo (stored target : List Nat) (objSize l : Nat) : Option Bool :=
  cmpGoAux stored target (objSize - l) l

/-- Addresses (in ascending slot order) of the occupied slots of one slab
that a `searchBatched` task reports as matching the given target. -/
def slabTargetMatches (objsPerSlab objSize : Nat) (sl : Slab) (target : List Nat) : List Nat :=
  (((List.range objsPerSlab).filter
      (fun i => sl.bits.getD i false &&
        (cmpGo (sl.data.getD i []) target objSize 0 == some true))).map sl.slotAddr)

/-- A `searchBatched` per-slab task hits an out-of-range index (Go panic):
some occupied slot's comparison against some target runs past the end of
the target. -/
def slabTaskPanics (objsPerSlab objSize : Nat) (sl : Slab) (targets : List (List Nat)) : Prop :=
  ∃ i, i < objsPerSlab ∧ sl.bits.getD i false = true ∧
    ∃ t ∈ targets, cmpGo (sl.data.getD i []) t objSize 0 = none

instance (objsPerSlab objSize : Nat) (sl : Slab) (targets : List (List Nat)) :
    Decidable (slabTaskPanics objsPerSlab objSize sl targets) := by
  unfold slabTaskPanics; infer_instance

/-- Possible results of `searchBatched`.  The per-slab tasks run
concurrently and the collector applies last-write-wins per target index,
so for each target the final entry is 0 when no slab matches it, and
otherwise the last match (highest slot) of one of the slabs that match it
— which slab depends on the schedule.  The relation holds for exactly the
result lists some schedule can produce, and only when no task panics. -/
def searchBatchedOutcome (s : SlabPool) (targets : List (List Nat)) (res : List Nat) : Prop :=
  (∀ sl ∈ s.slabs, ¬ slabTaskPanics s.objsPerSlab s.objSize sl targets) ∧
  res.length = targets.length ∧
  (∀ k, k < targets.length →
    ((∀ sl ∈ s.slabs, slabTargetMatches s.objsPerSlab s.objSize sl (targets.getD k []) = []) ∧
        res.getD k 0 = 0) ∨
    (∃ sl ∈ s.slabs, slabTargetMatches s.objsPerSlab s.objSize sl (targets.getD k []) ≠ [] ∧
        res.getD k 0 =
          (slabTargetMatches s.objsPerSlab s.objSize sl (targets.getD k [])).getLastD 0))

instance (s : SlabPool) (targets : List (List Nat)) (res : List Nat) :
    Decidable (searchBatchedOutcome s targets res) := by
  unfold searchBatchedOutcome; infer_instance

/-- Outcomes of `deleteSlab` in the embedding: success, the propagated
`syscall.Munmap` error, or the out-of-range panic on `s.slabs[slabIdx]`
when the binary search returned the not-found sentinel. -/
inductive DeleteResult where
  | ok
  | errUnmap
  | panicOutOfRange
  deriving Repr, DecidableEq

/-- Embedding of `deleteSlab`: look the slab up by address, read
`s.slabs[slabIdx]` (a panic when the index is the sentinel), remove it
from the list (`copy` + truncate = `eraseIdx`), then unmap — `unmapOk`
is `syscall.Munmap`'s verdict, and on `false` the error is returned with
the slab already removed. -/
def SlabPool.deleteSlab (s : SlabPool) (slabAddr : Nat) (unmapOk : Bool) :
    DeleteResult × SlabPool :=
  let slabIdx := s.findSlabByAddr slabAddr
  if slabIdx < s.slabs.length then
    let s' := { s with slabs := s.slabs.eraseIdx slabIdx }
    (if unmapOk then DeleteResult.ok else DeleteResult.errUnmap, s')
  else (DeleteResult.panicOutOfRange, s)

/-- Spec-level order invariant: the slab list is sorted by strictly
descending base address. -/
def sortedDesc (l : List Slab) : Prop :=
  l.Pairwise (fun a b => b.addr < a.addr)

instance (l : List Slab) : Decidable (sortedDesc l) := by
  unfold sortedDesc; infer_instance

/-! Characterization of the `sort.Search` embedding: on a monotone
predicate (false then true) it returns the least true index, or `n`. -/

theorem sortSearchAux_ge (f : Nat → Bool) (i j : Nat) : i ≤ sortSearchAux f i j := by
  induction i, j using sortSearchAux.induct f with
  | case1 i j hij hm hf ih =>
      have hmeq : hm = (i + j) / 2 := rfl
      rw [sortSearchAux]
      simp only [if_pos hij, ← hmeq, hf, if_true]
      exact ih
  | case2 i j hij hm hf ih =>
      have hmeq : hm = (i + j) / 2 := rfl
      rw [sortSearchAux]
      simp only [Bool.not_eq_true] at hf
      simp only [if_pos hij, ← hmeq, hf, Bool.false_eq_true, if_false]
      omega
  | case3 i j hij => rw [sortSearchAux]; simp [hij]

theorem sortSearchAux_le (f : Nat → Bool) (i j : Nat) (hij : i ≤ j) :
    sortSearchAux f i j ≤ j := by
  induction i, j using sortSearchAux.induct f with
  | case1 i j hlt hm hf ih =>
      have hmeq : hm = (i + j) / 2 := rfl
      rw [sortSearchAux]
      simp only [if_pos hlt, ← hmeq, hf, if_true]
      have := ih (by omega)
      omega
  | case2 i j hlt hm hf ih =>
      have hmeq : hm = (i + j) / 2 := rfl
      rw [sortSearchAux]
      simp only [Bool.not_eq_true] at hf
      simp only [if_pos hlt, ← hmeq, hf, Bool.false_eq_true, if_false]
      exact ih (by omega)
  | case3 i j hlt => rw [sortSearchAux]; simp only [if_neg hlt]; omega

theorem sortSearchAux_val (f : Nat → Bool) (i j : Nat) (hij : i ≤ j) :
    sortSearchAux f i j = j ∨ f (sortSearchAux f i j) = true := by
  induction i, j using sortSearchAux.induct f with
  | case1 i j hlt hm hf ih =>
      have hmeq : hm = (i + j) / 2 := rfl
      rw [sortSearchAux]
      simp only [if_pos hlt, ← hmeq, hf, if_true]
      rcases ih (by omega) with h | h
      · right; rw [h, hmeq]; exact hf
      · right; exact h
  | case2 i j hlt hm hf ih =>
      have hmeq : hm = (i + j) / 2 := rfl
      rw [sortSearchAux]
      simp only [Bool.not_eq_true] at hf
      simp only [if_pos hlt, ← hmeq, hf, Bool.false_eq_true, if_false]
      exact ih (by omega)
  | case3 i j hlt =>
      rw [sortSearchAux]; simp only [if_neg hlt]; left; omega

theorem sortSearchAux_pred (f : Nat → Bool) (i j : Nat)
    (hi : i = 0 ∨ f (i - 1) = false) :
    sortSearchAux f i j = 0 ∨ f (sortSearchAux f i j - 1) = false := by
  induction i, j using sortSearchAux.induct f with
  | case1 i j hlt hm hf ih =>
      have hmeq : hm = (i + j) / 2 := rfl
      rw [sortSearchAux]
      simp only [if_pos hlt, ← hmeq, hf, if_true]
      exact ih hi
  | case2 i j hlt hm hf ih =>
      have hmeq : hm = (i + j) / 2 := rfl
      rw [sortSearchAux]
      simp only [Bool.not_eq_true] at hf
      simp only [if_pos hlt, ← hmeq, hf, Bool.false_eq_true, if_false]
      refine ih (Or.inr ?_)
      simpa [hmeq] using hf
  | case3 i j hlt => rw [sortSearchAux]; simp only [if_neg hlt]; exact hi

theorem sortSearch_spec (n : Nat) (f : Nat → Bool)
    (mono : ∀ k l, k ≤ l → f k = true → f l = true) :
    sortSearch n f ≤ n ∧ (∀ k, k < sortSearch n f → f k = false) ∧
      (sortSearch n f < n → f (sortSearch n f) = true) := by
  unfold sortSearch
  have hle := sortSearchAux_le f 0 n (Nat.zero_le n)
  have hval := sortSearchAux_val f 0 n (Nat.zero_le n)
  have hpred := sortSearchAux_pred f 0 n (Or.inl rfl)
  refine ⟨hle, ?_, ?_⟩
  · intro k hk
    rcases hpred with h0 | hp
    · omega
    · by_contra hfk
      simp only [Bool.not_eq_false] at hfk
      have := mono k (sortSearchAux f 0 n - 1) (by omega) hfk
      rw [this] at hp
      exact absurd hp (by simp)
  · intro hlt
    rcases hval with h | h
    · omega
    · exact h

/-- Address of the slab at index `i` of a slab list (0 out of range, the
default slab's base). -/
def addrAt (l : List Slab) (i : Nat) : Nat := (l.getD i defaultSlab).addr

theorem sortedDesc_addrAt {l : List Slab} (hs : sortedDesc l) {i j : Nat}
    (hij : i < j) (hj : j < l.length) : addrAt l j < addrAt l i := by
  have hi : i < l.length := Nat.lt_trans hij hj
  have h := (List.pairwise_iff_getElem.mp hs) i j hi hj hij
  unfold addrAt
  rw [List.getD_eq_getElem _ _ hi, List.getD_eq_getElem _ _ hj]
  exact h

theorem sortedDesc_addrAt_le {l : List Slab} (hs : sortedDesc l) {i j : Nat}
    (hij : i ≤ j) (hj : j < l.length) : addrAt l j ≤ addrAt l i := by
  rcases Nat.eq_or_lt_of_le hij with rfl | h
  · exact Nat.le_refl _
  · exact Nat.le_of_lt (sortedDesc_addrAt hs h hj)

theorem addrAt_default {l : List Slab} {i : Nat} (h : l.length ≤ i) : addrAt l i = 0 := by
  unfold addrAt
  rw [List.getD_eq_default _ _ h]
  rfl

theorem findSlabByAddr_le_mono {l : List Slab} (hs : sortedDesc l) (a : Nat) :
    ∀ k m, k ≤ m → decide (addrAt l k ≤ a) = true → decide (addrAt l m ≤ a) = true := by
  intro k m hkm hk
  by_cases hm : m < l.length
  · have hk' : addrAt l k ≤ a := of_decide_eq_true hk
    exact decide_eq_true (Nat.le_trans (sortedDesc_addrAt_le hs hkm hm) hk')
  · rw [addrAt_default (Nat.le_of_not_lt hm)]
    exact decide_eq_true (Nat.zero_le a)

theorem findSlabByAddr_spec (s : SlabPool) (a : Nat) (hs : sortedDesc s.slabs) :
    s.findSlabByAddr a ≤ s.slabs.length ∧
    (∀ k, k < s.findSlabByAddr a → a < addrAt s.slabs k) ∧
    (s.findSlabByAddr a < s.slabs.length → addrAt s.slabs (s.findSlabByAddr a) ≤ a) := by
  have h := sortSearch_spec s.slabs.length
      (fun i => decide (addrAt s.slabs i ≤ a)) (findSlabByAddr_le_mono hs a)
  unfold SlabPool.findSlabByAddr
  refine ⟨h.1, ?_, ?_⟩
  · intro k hk
    have := h.2.1 k hk
    have := of_decide_eq_false this
    omega
  · intro hlt
    exact of_decide_eq_true (h.2.2 hlt)

theorem insertPos_lt_mono {l : List Slab} (hs : sortedDesc l) (b : Nat) :
    ∀ k m, k ≤ m → decide (addrAt l k < b) = true → decide (addrAt l m < b) = true := by
  intro k m hkm hk
  have hk' : addrAt l k < b := of_decide_eq_true hk
  by_cases hm : m < l.length
  · have hkl : k < l.length := Nat.lt_of_le_of_lt hkm hm
    exact decide_eq_true (Nat.lt_of_le_of_lt (sortedDesc_addrAt_le hs hkm hm) hk')
  · rw [addrAt_default (Nat.le_of_not_lt hm)]
    by_cases hkl : k < l.length
    · exact decide_eq_true (Nat.lt_of_le_of_lt (Nat.zero_le _) hk')
    · rw [addrAt_default (Nat.le_of_not_lt hkl)] at hk'
      exact decide_eq_true hk'

theorem insertPos_spec (s : SlabPool) (b : Nat) (hs : sortedDesc s.slabs) :
    s.insertPos b ≤ s.slabs.length ∧
    (∀ k, k < s.insertPos b → b ≤ addrAt s.slabs k) ∧
    (∀ k, s.insertPos b ≤ k → k < s.slabs.length → addrAt s.slabs k < b) := by
  have h := sortSearch_spec s.slabs.length
      (fun i => decide (addrAt s.slabs i < b)) (insertPos_lt_mono hs b)
  unfold SlabPool.insertPos
  refine ⟨h.1, ?_, ?_⟩
  · intro k hk
    have := of_decide_eq_false (h.2.1 k hk)
    omega
  · intro k hpk hk
    have hplt : sortSearch s.slabs.length (fun i => decide (addrAt s.slabs i < b)) <
        s.slabs.length := Nat.lt_of_le_of_lt hpk hk
    have hfp := h.2.2 hplt
    have := insertPos_lt_mono hs b _ k hpk hfp
    exact of_decide_eq_true this

/-- Sortedness only depends on the list of base addresses. -/
theorem sortedDesc_iff_map (l : List Slab) :
    sortedDesc l ↔ (l.map Slab.addr).Pairwise (fun a b => b < a) := by
  unfold sortedDesc
  rw [List.pairwise_map]

theorem sortedDesc_of_map_eq {l l' : List Slab}
    (h : l'.map Slab.addr = l.map Slab.addr) (hs : sortedDesc l) : sortedDesc l' := by
  rw [sortedDesc_iff_map] at *
  rw [h]
  exact hs

theorem mem_addr_lt_of_sortedDesc {l : List Slab} (hs : sortedDesc l) {a : Slab} {t : List Slab}
    (hl : l = a :: t) {y : Slab} (hy : y ∈ t) : y.addr < a.addr := by
  subst hl
  exact (List.pairwise_cons.mp hs).1 y hy

theorem sortedDesc_insertIdx (l : List Slab) (x : Slab) (p : Nat) (hp : p ≤ l.length)
    (hs : sortedDesc l)
    (hbefore : ∀ k, k < p → x.addr < addrAt l k)
    (hafter : ∀ k, p ≤ k → k < l.length → addrAt l k < x.addr) :
    sortedDesc (l.insertIdx p x) := by
  induction l generalizing p with
  | nil =>
      have : p = 0 := Nat.le_zero.mp hp
      subst this
      simp only [List.insertIdx_zero]
      exact List.pairwise_singleton _ _
  | cons a t ih =>
      cases p with
      | zero =>
          simp only [List.insertIdx_zero]
          refine List.pairwise_cons.mpr ⟨?_, hs⟩
          intro y hy
          rcases List.mem_cons.mp hy with rfl | hyt
          · have := hafter 0 (Nat.zero_le _) (by simp)
            simpa [addrAt] using this
          · rcases List.mem_iff_getElem.mp hyt with ⟨i, hi, rfl⟩
            have := hafter (i + 1) (Nat.zero_le _) (by simpa using Nat.succ_lt_succ hi)
            unfold addrAt at this
            rw [List.getD_cons_succ, List.getD_eq_getElem _ _ hi] at this
            exact this
      | succ q =>
          simp only [List.insertIdx_succ_cons]
          have hq : q ≤ t.length := by simpa using hp
          refine List.pairwise_cons.mpr ⟨?_, ?_⟩
          · intro y hy
            rcases (List.mem_insertIdx hq).mp hy with rfl | hyt
            · have := hbefore 0 (Nat.succ_pos q)
              simpa [addrAt] using this
            · exact mem_addr_lt_of_sortedDesc hs rfl hyt
          · refine ih q hq (List.pairwise_cons.mp hs).2 ?_ ?_
            · intro k hk
              have := hbefore (k + 1) (Nat.succ_lt_succ hk)
              unfold addrAt at *
              rwa [List.getD_cons_succ] at this
            · intro k hqk hk
              have := hafter (k + 1) (Nat.succ_le_succ hqk) (by simpa using Nat.succ_lt_succ hk)
              unfold addrAt at *
              rwa [List.getD_cons_succ] at this

theorem sortedDesc_eraseIdx {l : List Slab} (hs : sortedDesc l) (i : Nat) :
    sortedDesc (l.eraseIdx i) :=
  hs.sublist (List.eraseIdx_sublist l i)

/-- `addObj` never changes a slab's base address. -/
theorem addObj_addr {sl sl' : Slab} {obj : List Nat} {a : Nat}
    (h : sl.addObj obj = some (a, sl')) : sl'.addr = sl.addr := by
  unfold Slab.addObj at h
  cases hf : sl.bits.findIdx? (fun b => !b) with
  | none => rw [hf] at h; exact absurd h (by simp)
  | some i =>
      rw [hf] at h
      simp only [Option.some.injEq, Prod.mk.injEq] at h
      rw [← h.2]
      rfl

/-- The slab-loop of `add` preserves the list of base addresses: only the
accepting slab changes, and only its bitmap and data. -/
theorem addLoop_map_addr {obj : List Nat} :
    ∀ {l l' : List Slab} {a : Nat}, addLoop obj l = some (a, l') →
      l'.map Slab.addr = l.map Slab.addr := by
  intro l
  induction l with
  | nil => intro l' a h; exact absurd h (by simp [addLoop])
  | cons sl rest ih =>
      intro l' a h
      unfold addLoop at h
      cases hadd : sl.addObj obj with
      | some pr =>
          rw [hadd] at h
          simp only [Option.some.injEq, Prod.mk.injEq] at h
          rw [← h.2]
          simp only [List.map_cons]
          rw [addObj_addr (by rw [hadd])]
      | none =>
          rw [hadd] at h
          cases hrec : addLoop obj rest with
          | some pr =>
              obtain ⟨a0, rest0⟩ := pr
              rw [hrec] at h
              simp only [Option.some.injEq, Prod.mk.injEq] at h
              rw [← h.2]
              simp only [List.map_cons]
              rw [ih hrec]
          | none => rw [hrec] at h; exact absurd h (by simp)

theorem newSlab_addr (objSize objsPerSlab b : Nat) : (newSlab objSize objsPerSlab b).addr = b := rfl

theorem addSlab_some (s : SlabPool) (b : Nat) :
    s.addSlab (some b) = some (newSlab s.objSize s.objsPerSlab b,
      { s with slabs :=
          s.slabs.insertIdx (s.insertPos b) (newSlab s.objSize s.objsPerSlab b) }) := rfl

theorem addrAt_mem {l : List Slab} {k : Nat} (hk : k < l.length) :
    addrAt l k ∈ l.map Slab.addr := by
  unfold addrAt
  rw [List.getD_eq_getElem _ _ hk]
  exact List.mem_map_of_mem Slab.addr (l.getElem_mem hk)

theorem set_insertIdx_same :
    ∀ (l : List Slab) (p : Nat) (x y : Slab), p ≤ l.length →
      (l.insertIdx p x).set p y = l.insertIdx p y := by
  intro l
  induction l with
  | nil =>
      intro p x y hp
      have : p = 0 := Nat.le_zero.mp hp
      subst this
      rfl
  | cons a t ih =>
      intro p x y hp
      cases p with
      | zero => rfl
      | succ q =>
          simp only [List.insertIdx_succ_cons, List.set_cons_succ]
          rw [ih q x y (by simpa using hp)]

/-- Insertion of a fresh slab at the insertion position preserves strict
descending order, provided the new base address is not already present. -/
theorem sortedDesc_insert_fresh (s : SlabPool) (x : Slab) (hs : sortedDesc s.slabs)
    (hfresh : x.addr ∉ s.slabs.map Slab.addr) :
    sortedDesc (s.slabs.insertIdx (s.insertPos x.addr) x) := by
  obtain ⟨hple, hbef, haft⟩ := insertPos_spec s x.addr hs
  refine sortedDesc_insertIdx s.slabs x (s.insertPos x.addr) hple hs ?_ ?_
  · intro k hk
    have hk' : k < s.slabs.length := Nat.lt_of_lt_of_le hk hple
    have hle := hbef k hk
    have hne : addrAt s.slabs k ≠ x.addr := by
      intro he
      exact hfresh (he ▸ addrAt_mem hk')
    omega
  · exact haft

/-- Equation lemma for `add`: some existing slab accepts the object. -/
theorem add_eq_of_loop_some {s : SlabPool} {alloc : Option Nat} {obj : List Nat}
    {a : Nat} {slabs' : List Slab} (h : addLoop obj s.slabs = some (a, slabs')) :
    s.add alloc obj = ((a, 0, none), { s with slabs := slabs' }) := by
  unfold SlabPool.add
  rw [h]

/-- Equation lemma for `add`: all slabs full and the mapping fails. -/
theorem add_eq_of_alloc_fail {s : SlabPool} {obj : List Nat}
    (h : addLoop obj s.slabs = none) :
    s.add none obj = ((0, 0, some AddErr.allocFailed), s) := by
  unfold SlabPool.add
  rw [h]
  rfl

/-- Equation lemma for `add`: all slabs full, a fresh slab is mapped at
base `b`, and even the fresh slab rejects the object. -/
theorem add_eq_of_new_slab_fail {s : SlabPool} {obj : List Nat} {b : Nat}
    (h : addLoop obj s.slabs = none)
    (h2 : (newSlab s.objSize s.objsPerSlab b).addObj obj = none) :
    s.add (some b) obj = ((0, 0, some AddErr.addToNewSlabFailed),
      { s with slabs :=
          s.slabs.insertIdx (s.insertPos b) (newSlab s.objSize s.objsPerSlab b) }) := by
  unfold SlabPool.add
  rw [h]
  simp only [addSlab_some, h2]

theorem insertPos_le (s : SlabPool) (b : Nat) : s.insertPos b ≤ s.slabs.length :=
  sortSearchAux_le _ 0 _ (Nat.zero_le _)

/-- Equation lemma for `add`: all slabs full, a fresh slab is mapped at
base `b` and accepts the object. -/
theorem add_eq_of_new_slab_ok {s : SlabPool} {obj : List Nat} {b a : Nat} {sl' : Slab}
    (h : addLoop obj s.slabs = none)
    (h2 : (newSlab s.objSize s.objsPerSlab b).addObj obj = some (a, sl')) :
    s.add (some b) obj = ((a, b, none),
      { s with slabs := s.slabs.insertIdx (s.insertPos b) sl' }) := by
  unfold SlabPool.add
  rw [h]
  simp only [addSlab_some, h2, newSlab_addr]
  rw [set_insertIdx_same s.slabs (s.insertPos b) _ sl' (insertPos_le s b)]

/-- Equation lemma for `deleteSlab` when the binary search returns an
in-range index. -/
theorem deleteSlab_eq_found {s : SlabPool} {slabAddr : Nat} {unmapOk : Bool}
    (h : s.findSlabByAddr slabAddr < s.slabs.length) :
    s.deleteSlab slabAddr unmapOk =
      (if unmapOk then DeleteResult.ok else DeleteResult.errUnmap,
        { s with slabs := s.slabs.eraseIdx (s.findSlabByAddr slabAddr) }) := by
  unfold SlabPool.deleteSlab
  simp only [h, if_true]

/-- Equation lemma for `deleteSlab` when the binary search returns the
not-found sentinel (the slab-slice access panics). -/
theorem deleteSlab_eq_panic {s : SlabPool} {slabAddr : Nat} {unmapOk : Bool}
    (h : ¬ s.findSlabByAddr slabAddr < s.slabs.length) :
    s.deleteSlab slabAddr unmapOk = (DeleteResult.panicOutOfRange, s) := by
  unfold SlabPool.deleteSlab
  simp only [h, if_false]

/-- C1: for every slab pool whose slab sequence is sorted by strictly
descending base address (with the freshly allocated base address, when
there is one, distinct from every existing one), a single call to `add`,
`addSlab` or `deleteSlab` leaves the slab sequence sorted by strictly
descending base address. -/
theorem claim_C1_sorted_preserved (s : SlabPool) (alloc : Option Nat) (obj : List Nat)
    (slabAddr : Nat) (unmapOk : Bool)
    (hs : sortedDesc s.slabs)
    (hfresh : ∀ b, alloc = some b → b ∉ s.slabs.map Slab.addr) :
    sortedDesc ((s.add alloc obj).2).slabs ∧
    (∀ sl' s', s.addSlab alloc = some (sl', s') → sortedDesc s'.slabs) ∧
    sortedDesc ((s.deleteSlab slabAddr unmapOk).2).slabs := by
  refine ⟨?_, ?_, ?_⟩
  · cases hloop : addLoop obj s.slabs with
    | some pr =>
        obtain ⟨a, slabs'⟩ := pr
        rw [add_eq_of_loop_some hloop]
        exact sortedDesc_of_map_eq (addLoop_map_addr hloop) hs
    | none =>
        cases alloc with
        | none => rw [add_eq_of_alloc_fail hloop]; exact hs
        | some b =>
            cases hadd : (newSlab s.objSize s.objsPerSlab b).addObj obj with
            | none =>
                rw [add_eq_of_new_slab_fail hloop hadd]
                exact sortedDesc_insert_fresh s (newSlab s.objSize s.objsPerSlab b) hs
                  (hfresh b rfl)
            | some pr =>
                obtain ⟨a, sl'⟩ := pr
                rw [add_eq_of_new_slab_ok hloop hadd]
                have haddr : sl'.addr = b := addObj_addr hadd
                have := sortedDesc_insert_fresh s sl' hs (by rw [haddr]; exact hfresh b rfl)
                rwa [haddr] at this
  · intro sl' s' h
    cases alloc with
    | none => exact absurd h (by simp [SlabPool.addSlab])
    | some b =>
        rw [addSlab_some] at h
        simp only [Option.some.injEq, Prod.mk.injEq] at h
        rw [← h.2]
        have := sortedDesc_insert_fresh s (newSlab s.objSize s.objsPerSlab b) hs (hfresh b rfl)
        simpa [newSlab_addr] using this
  · by_cases hidx : s.findSlabByAddr slabAddr < s.slabs.length
    · rw [deleteSlab_eq_found hidx]
      exact sortedDesc_eraseIdx hs _
    · rw [deleteSlab_eq_panic hidx]
      exact hs

/-- Concrete slab with one occupied slot, used by witnesses. -/
def slabA : Slab :=
  { base := 200, objSize := 1, objsPerSlab := 1, bits := [true], data := [[7]] }

/-- Concrete slab with one free slot, used by witnesses. -/
def slabB : Slab :=
  { base := 100, objSize := 1, objsPerSlab := 1, bits := [false], data := [[0]] }

/-- Concrete two-slab pool (descending bases 200, 100), used by witnesses. -/
def poolW : SlabPool := { slabs := [slabA, slabB], objSize := 1, objsPerSlab := 1 }

theorem claim_C1_sorted_preserved_witness :
    sortedDesc poolW.slabs ∧
    sortedDesc ((poolW.add (some 300) [5]).2).slabs ∧
    sortedDesc ((poolW.deleteSlab 200 true).2).slabs := by
  have h := claim_C1_sorted_preserved poolW (some 300) [5] 200 true (by decide)
    (by intro b hb; cases hb; decide)
  exact ⟨by decide, h.1, h.2.2⟩

/-- C2: on a pool sorted by strictly descending base address,
`findSlabByAddr a` returns the length of the slab list (the not-found
sentinel) when no slab's base address is `≤ a` — in particular on an
empty pool — and otherwise the index of the slab whose base address is
the greatest base address `≤ a`. -/
theorem claim_C2_findSlabByAddr (s : SlabPool) (a : Nat) (hs : sortedDesc s.slabs) :
    ((∀ i, i < s.slabs.length → a < addrAt s.slabs i) →
      s.findSlabByAddr a = s.slabs.length) ∧
    (∀ m, m < s.slabs.length → addrAt s.slabs m ≤ a →
      s.findSlabByAddr a < s.slabs.length ∧
      addrAt s.slabs (s.findSlabByAddr a) ≤ a ∧
      (∀ i, i < s.slabs.length → addrAt s.slabs i ≤ a →
        addrAt s.slabs i ≤ addrAt s.slabs (s.findSlabByAddr a))) := by
  obtain ⟨hle, hbelow, hat⟩ := findSlabByAddr_spec s a hs
  constructor
  · intro hall
    by_contra hne
    have hlt : s.findSlabByAddr a < s.slabs.length := Nat.lt_of_le_of_ne hle hne
    have h1 := hat hlt
    have h2 := hall _ hlt
    omega
  · intro m hm hma
    have hrm : s.findSlabByAddr a ≤ m := by
      by_contra hgt
      have := hbelow m (Nat.lt_of_not_le hgt)
      omega
    have hrlt : s.findSlabByAddr a < s.slabs.length := Nat.lt_of_le_of_lt hrm hm
    refine ⟨hrlt, hat hrlt, ?_⟩
    intro i hi hia
    have hri : s.findSlabByAddr a ≤ i := by
      by_contra hgt
      have := hbelow i (Nat.lt_of_not_le hgt)
      omega
    exact sortedDesc_addrAt_le hs hri hi

theorem claim_C2_findSlabByAddr_witness :
    sortedDesc poolW.slabs ∧
    poolW.findSlabByAddr 150 < poolW.slabs.length ∧
    addrAt poolW.slabs (poolW.findSlabByAddr 150) ≤ 150 := by
  have h := (claim_C2_findSlabByAddr poolW 150 (by decide)).2 1 (by decide) (by decide)
  exact ⟨by decide, h.1, h.2.1⟩

/-- C8: calling `deleteSlab` with an address below every slab's base
address — in particular on an empty pool — is unchecked: the lookup
returns the sentinel index equal to the slab-list length, and the
subsequent `s.slabs[slabIdx]` access indexes out of range (embedded as
the `panicOutOfRange` outcome, the pool left as it was). -/
theorem claim_C8_deleteSlab_unowned (s : SlabPool) (a : Nat) (unmapOk : Bool)
    (h : ∀ sl ∈ s.slabs, a < sl.addr) :
    s.findSlabByAddr a = s.slabs.length ∧
    s.deleteSlab a unmapOk = (DeleteResult.panicOutOfRange, s) := by
  have hmono : ∀ k m, k ≤ m → (fun i => decide (addrAt s.slabs i ≤ a)) k = true →
      (fun i => decide (addrAt s.slabs i ≤ a)) m = true := by
    intro k m hkm hk
    have hk' : addrAt s.slabs k ≤ a := of_decide_eq_true hk
    have hkn : ¬ k < s.slabs.length := by
      intro hlt
      have hmem : addrAt s.slabs k ∈ s.slabs.map Slab.addr := addrAt_mem hlt
      obtain ⟨sl, hsl, hsleq⟩ := List.mem_map.mp hmem
      have := h sl hsl
      omega
    have hmn : s.slabs.length ≤ m := Nat.le_trans (Nat.le_of_not_lt hkn) hkm
    show decide (addrAt s.slabs m ≤ a) = true
    rw [addrAt_default hmn]
    exact decide_eq_true (Nat.zero_le a)
  have hspec := sortSearch_spec s.slabs.length
      (fun i => decide (addrAt s.slabs i ≤ a)) hmono
  have hr : s.findSlabByAddr a = s.slabs.length := by
    unfold SlabPool.findSlabByAddr
    rcases Nat.lt_or_ge (sortSearch s.slabs.length
        (fun i => decide (addrAt s.slabs i ≤ a))) s.slabs.length with hlt | hge
    · exfalso
      have hf := hspec.2.2 hlt
      have hval : addrAt s.slabs (sortSearch s.slabs.length
          (fun i => decide (addrAt s.slabs i ≤ a))) ≤ a := of_decide_eq_true hf
      have hmem := addrAt_mem hlt
      obtain ⟨sl, hsl, hsleq⟩ := List.mem_map.mp hmem
      have := h sl hsl
      omega
    · exact Nat.le_antisymm hspec.1 hge
  refine ⟨hr, ?_⟩
  apply deleteSlab_eq_panic
  rw [hr]
  exact Nat.lt_irrefl _

theorem claim_C8_deleteSlab_unowned_witness :
    (NewSlabPool 8 2).findSlabByAddr 42 = (NewSlabPool 8 2).slabs.length ∧
    (NewSlabPool 8 2).deleteSlab 42 true = (DeleteResult.panicOutOfRange, NewSlabPool 8 2) :=
  claim_C8_deleteSlab_unowned (NewSlabPool 8 2) 42 true (by intro sl hsl; cases hsl)

/-- On a sorted pool, looking up an existing slab's exact base address
returns that slab's index. -/
theorem findSlabByAddr_exact {s : SlabPool} {idx : Nat} (hs : sortedDesc s.slabs)
    (hidx : idx < s.slabs.length) :
    s.findSlabByAddr (addrAt s.slabs idx) = idx := by
  obtain ⟨hle, hbelow, hat⟩ := findSlabByAddr_spec s (addrAt s.slabs idx) hs
  have hrle : s.findSlabByAddr (addrAt s.slabs idx) ≤ idx := by
    by_contra hgt
    have := hbelow idx (Nat.lt_of_not_le hgt)
    omega
  rcases Nat.eq_or_lt_of_le hrle with he | hlt
  · exact he
  · exfalso
    have hrn : s.findSlabByAddr (addrAt s.slabs idx) < s.slabs.length :=
      Nat.lt_trans hlt hidx
    have h1 := hat hrn
    have h2 := sortedDesc_addrAt hs hlt hidx
    omega

/-- C9: deleting a slab that is present in a sorted pool unlinks it from
the sequence (an `eraseIdx`, keeping the remaining slabs in order) before
the unmap; when the unmap fails the error is returned but the slab is
already gone from the sequence. -/
theorem claim_C9_delete_unlink_before_unmap (s : SlabPool) (slabAddr idx : Nat)
    (hs : sortedDesc s.slabs) (hidx : idx < s.slabs.length)
    (haddr : addrAt s.slabs idx = slabAddr) :
    s.findSlabByAddr slabAddr = idx ∧
    s.deleteSlab slabAddr false =
      (DeleteResult.errUnmap, { s with slabs := s.slabs.eraseIdx idx }) ∧
    (∀ sl ∈ ((s.deleteSlab slabAddr false).2).slabs, sl.addr ≠ slabAddr) := by
  subst haddr
  have hfind := findSlabByAddr_exact hs hidx
  have hdel : s.deleteSlab (addrAt s.slabs idx) false =
      (DeleteResult.errUnmap, { s with slabs := s.slabs.eraseIdx idx }) := by
    have := @deleteSlab_eq_found s (addrAt s.slabs idx) false (by rw [hfind]; exact hidx)
    rw [hfind] at this
    simpa using this
  refine ⟨hfind, hdel, ?_⟩
  intro sl hsl
  rw [hdel] at hsl
  simp only [] at hsl
  rcases List.mem_iff_getElem.mp hsl with ⟨j, hj, rfl⟩
  rw [List.getElem_eraseIdx]
  by_cases hji : j < idx
  · simp only [hji, dif_pos]
    have hjlen : j < s.slabs.length := Nat.lt_trans hji hidx
    have hlt := sortedDesc_addrAt hs hji hidx
    have hgd : s.slabs[j] = s.slabs.getD j defaultSlab :=
      (List.getD_eq_getElem _ _ hjlen).symm
    rw [hgd]
    show addrAt s.slabs j ≠ addrAt s.slabs idx
    omega
  · rw [dif_neg hji]
    have hjlen : j + 1 < s.slabs.length := by
      have hl := hj
      rw [List.length_eraseIdx] at hl
      simp only [hidx, if_pos] at hl
      omega
    have hij : idx < j + 1 := by omega
    have hlt := sortedDesc_addrAt hs hij hjlen
    have hgd : s.slabs[j + 1] = s.slabs.getD (j + 1) defaultSlab :=
      (List.getD_eq_getElem _ _ hjlen).symm
    rw [hgd]
    show addrAt s.slabs (j + 1) ≠ addrAt s.slabs idx
    omega

theorem claim_C9_delete_unlink_before_unmap_witness :
    poolW.findSlabByAddr 200 = 0 ∧
    poolW.deleteSlab 200 false =
      (DeleteResult.errUnmap, { poolW with slabs := poolW.slabs.eraseIdx 0 }) := by
  have h := claim_C9_delete_unlink_before_unmap poolW 200 0 (by decide) (by decide) (by decide)
  exact ⟨h.1, h.2.1⟩

/-- A slab rejects an object exactly when it has no free slot. -/
theorem addObj_eq_none_iff (sl : Slab) (obj : List Nat) :
    sl.addObj obj = none ↔ ¬ sl.hasFreeSlot := by
  unfold Slab.addObj
  constructor
  · intro h hfree
    cases hf : sl.bits.findIdx? (fun b => !b) with
    | some i => rw [hf] at h; exact absurd h (by simp)
    | none =>
        obtain ⟨i, hi, hbit⟩ := hfree
        have hall := List.findIdx?_eq_none_iff.mp hf
        have hmem : sl.bits[i] ∈ sl.bits := sl.bits.getElem_mem hi
        have := hall _ hmem
        rw [List.getD_eq_getElem _ _ hi] at hbit
        rw [hbit] at this
        simp at this
  · intro hfree
    cases hf : sl.bits.findIdx? (fun b => !b) with
    | none => simp
    | some i =>
        exfalso
        obtain ⟨hi, hp, _⟩ := List.findIdx?_eq_some_iff_getElem.mp hf
        refine hfree ⟨i, hi, ?_⟩
        rw [List.getD_eq_getElem _ _ hi]
        simpa using hp

/-- First-fit characterization of a successful `addObj`: the chosen slot
is the lowest-index free slot, the returned address is that slot's, the
bit is set and the bytes stored. -/
theorem addObj_eq_some_iff (sl : Slab) (obj : List Nat) (a : Nat) (sl' : Slab) :
    sl.addObj obj = some (a, sl') ↔
      ∃ i, i < sl.bits.length ∧ sl.bits.getD i true = false ∧
        (∀ j, j < i → sl.bits.getD j true = true) ∧
        a = sl.slotAddr i ∧
        sl' = { sl with bits := sl.bits.set i true, data := sl.data.set i obj } := by
  unfold Slab.addObj
  constructor
  · intro h
    cases hf : sl.bits.findIdx? (fun b => !b) with
    | none => rw [hf] at h; exact absurd h (by simp)
    | some i =>
        rw [hf] at h
        simp only [Option.some.injEq, Prod.mk.injEq] at h
        obtain ⟨hi, hp, hmin⟩ := List.findIdx?_eq_some_iff_getElem.mp hf
        refine ⟨i, hi, ?_, ?_, h.1.symm, h.2.symm⟩
        · rw [List.getD_eq_getElem _ _ hi]
          simpa using hp
        · intro j hj
          have hjl : j < sl.bits.length := Nat.lt_trans hj hi
          have := hmin j hj
          rw [List.getD_eq_getElem _ _ hjl]
          simpa using this
  · rintro ⟨i, hi, hfree, hmin, rfl, rfl⟩
    have hf : sl.bits.findIdx? (fun b => !b) = some i := by
      refine List.findIdx?_eq_some_iff_getElem.mpr ⟨hi, ?_, ?_⟩
      · rw [List.getD_eq_getElem _ _ hi] at hfree
        simp [hfree]
      · intro j hj
        have hjl : j < sl.bits.length := Nat.lt_trans hj hi
        have := hmin j hj
        rw [List.getD_eq_getElem _ _ hjl] at this
        simp [this]
    rw [hf]

/-- The slab loop fails exactly when every slab is full. -/
theorem addLoop_eq_none_iff (obj : List Nat) (l : List Slab) :
    addLoop obj l = none ↔ ∀ sl ∈ l, ¬ sl.hasFreeSlot := by
  induction l with
  | nil => simp [addLoop]
  | cons sl rest ih =>
      unfold addLoop
      constructor
      · intro h
        cases hadd : sl.addObj obj with
        | some pr => rw [hadd] at h; exact absurd h (by simp)
        | none =>
            rw [hadd] at h
            cases hrec : addLoop obj rest with
            | some pr => rw [hrec] at h; exact absurd h (by simp)
            | none =>
                intro x hx
                rcases List.mem_cons.mp hx with rfl | hxr
                · exact (addObj_eq_none_iff x obj).mp hadd
                · exact (ih.mp hrec) x hxr
      · intro h
        have hadd : sl.addObj obj = none :=
          (addObj_eq_none_iff sl obj).mpr (h sl (List.mem_cons_self sl rest))
        have hrec : addLoop obj rest = none :=
          ih.mpr (fun x hx => h x (List.mem_cons_of_mem sl hx))
        rw [hadd, hrec]

/-- C10: when every existing slab is full and the mapping of a new slab's
backing memory fails, `add` returns `(0, 0, error)` and the pool is left
exactly as it was — the failure is atomic. -/
theorem claim_C10_alloc_fail_atomic (s : SlabPool) (obj : List Nat)
    (hfull : ∀ sl ∈ s.slabs, ¬ sl.hasFreeSlot) :
    s.add none obj = ((0, 0, some AddErr.allocFailed), s) :=
  add_eq_of_alloc_fail ((addLoop_eq_none_iff obj s.slabs).mpr hfull)

/-- Concrete pool whose single slab is full, used by witnesses. -/
def poolFull : SlabPool := { slabs := [slabA], objSize := 1, objsPerSlab := 1 }

theorem claim_C10_alloc_fail_atomic_witness :
    poolFull.add none [5] = ((0, 0, some AddErr.allocFailed), poolFull) :=
  claim_C10_alloc_fail_atomic poolFull [5] (by decide)

/-- First-fit across slabs: when slab `j` is the first with a free slot,
the loop of `add` accepts the object there and replaces exactly that slab. -/
theorem addLoop_first_fit (obj : List Nat) :
    ∀ (l : List Slab) (j : Nat), j < l.length →
      (l.getD j defaultSlab).hasFreeSlot →
      (∀ i, i < j → ¬ (l.getD i defaultSlab).hasFreeSlot) →
      ∃ a sl', (l.getD j defaultSlab).addObj obj = some (a, sl') ∧
        addLoop obj l = some (a, l.set j sl') := by
  intro l
  induction l with
  | nil => intro j hj; exact absurd hj (by simp)
  | cons sl rest ih =>
      intro j hj hfree hmin
      cases j with
      | zero =>
          rw [List.getD_cons_zero] at hfree
          cases hadd : sl.addObj obj with
          | none => exact absurd hfree ((addObj_eq_none_iff sl obj).mp hadd)
          | some pr =>
              obtain ⟨a, sl'⟩ := pr
              refine ⟨a, sl', by rw [List.getD_cons_zero]; exact hadd, ?_⟩
              unfold addLoop
              rw [hadd]
              rfl
      | succ q =>
          have hq : q < rest.length := by simpa using hj
          rw [List.getD_cons_succ] at hfree
          have hslfull : ¬ sl.hasFreeSlot := by
            have := hmin 0 (Nat.succ_pos q)
            rwa [List.getD_cons_zero] at this
          have hminr : ∀ i, i < q → ¬ (rest.getD i defaultSlab).hasFreeSlot := by
            intro i hi
            have := hmin (i + 1) (Nat.succ_lt_succ hi)
            rwa [List.getD_cons_succ] at this
          obtain ⟨a, sl', haddObj, hloop⟩ := ih q hq hfree hminr
          refine ⟨a, sl', by rw [List.getD_cons_succ]; exact haddObj, ?_⟩
          unfold addLoop
          rw [(addObj_eq_none_iff sl obj).mpr hslfull, hloop]
          rfl

/-- A fresh slab with positive capacity accepts the object into slot 0. -/
theorem newSlab_addObj (objSize objsPerSlab b : Nat) (obj : List Nat)
    (hc : 0 < objsPerSlab) :
    (newSlab objSize objsPerSlab b).addObj obj =
      some ((newSlab objSize objsPerSlab b).slotAddr 0,
        { newSlab objSize objsPerSlab b with
            bits := (List.replicate objsPerSlab false).set 0 true,
            data := (List.replicate objsPerSlab (List.replicate objSize 0)).set 0 obj }) := by
  unfold Slab.addObj
  have hf : (List.replicate objsPerSlab false).findIdx? (fun b => !b) = some 0 := by
    refine List.findIdx?_eq_some_iff_getElem.mpr ⟨by simpa using hc, ?_, ?_⟩
    · simp
    · omega
  show (match (List.replicate objsPerSlab false).findIdx? (fun b => !b) with
    | none => none
    | some i => some ((newSlab objSize objsPerSlab b).slotAddr i,
        { newSlab objSize objsPerSlab b with
            bits := (List.replicate objsPerSlab false).set i true,
            data := (List.replicate objsPerSlab (List.replicate objSize 0)).set i obj })) = _
  rw [hf]

/-- C3: the `add` algorithm.  First-fit in current list order: when slab
`j` is the first with a free slot, its `addObj` result is returned with
the sentinel slab address 0 and only that slab changes.  When every slab
is full (or none exists) and the capacity is positive, a fresh slab is
mapped at the allocator's base `b`, spliced in at the insertion position,
the object lands in its slot 0, and `b` is returned as the new-slab
signal.  When the freshly created slab rejects the object (capacity 0),
the reported error is the internal invariant violation, distinct from the
resource-exhaustion error. -/
theorem claim_C3_add_algorithm (s : SlabPool) (b : Nat) (obj : List Nat) :
    (∀ j, j < s.slabs.length → (s.slabs.getD j defaultSlab).hasFreeSlot →
      (∀ i, i < j → ¬ (s.slabs.getD i defaultSlab).hasFreeSlot) →
      ∃ a sl', (s.slabs.getD j defaultSlab).addObj obj = some (a, sl') ∧
        s.add (some b) obj = ((a, 0, none), { s with slabs := s.slabs.set j sl' })) ∧
    ((∀ sl ∈ s.slabs, ¬ sl.hasFreeSlot) → 0 < s.objsPerSlab →
      ∃ sl', s.add (some b) obj =
          (((newSlab s.objSize s.objsPerSlab b).slotAddr 0, b, none),
            { s with slabs := s.slabs.insertIdx (s.insertPos b) sl' }) ∧
        sl'.addr = b ∧ sl'.bits.getD 0 true = true ∧ sl'.data.getD 0 [] = obj) ∧
    ((∀ sl ∈ s.slabs, ¬ sl.hasFreeSlot) → s.objsPerSlab = 0 →
      (s.add (some b) obj).1 = (0, 0, some AddErr.addToNewSlabFailed) ∧
      AddErr.addToNewSlabFailed ≠ AddErr.allocFailed) := by
  refine ⟨?_, ?_, ?_⟩
  · intro j hj hfree hmin
    obtain ⟨a, sl', haddObj, hloop⟩ := addLoop_first_fit obj s.slabs j hj hfree hmin
    exact ⟨a, sl', haddObj, add_eq_of_loop_some hloop⟩
  · intro hfull hc
    have hloop := (addLoop_eq_none_iff obj s.slabs).mpr hfull
    have hadd := newSlab_addObj s.objSize s.objsPerSlab b obj hc
    refine ⟨_, add_eq_of_new_slab_ok hloop hadd, rfl, ?_, ?_⟩
    · have h0 : (0 : Nat) < s.objsPerSlab := hc
      show ((List.replicate s.objsPerSlab false).set 0 true).getD 0 true = true
      rw [List.getD_eq_getElem _ _ (by simpa using h0), List.getElem_set]
      simp
    · have h0 : (0 : Nat) < s.objsPerSlab := hc
      show ((List.replicate s.objsPerSlab (List.replicate s.objSize 0)).set 0 obj).getD 0 [] = obj
      rw [List.getD_eq_getElem _ _ (by simpa using h0), List.getElem_set]
      simp
  · intro hfull hc
    have hloop := (addLoop_eq_none_iff obj s.slabs).mpr hfull
    have hadd : (newSlab s.objSize s.objsPerSlab b).addObj obj = none := by
      rw [addObj_eq_none_iff]
      intro hfree
      obtain ⟨i, hi, _⟩ := hfree
      rw [hc] at hi
      simp [newSlab] at hi
    rw [add_eq_of_new_slab_fail hloop hadd]
    exact ⟨rfl, by decide⟩

theorem claim_C3_add_algorithm_witness :
    ∃ a sl', (poolW.slabs.getD 1 defaultSlab).addObj [9] = some (a, sl') ∧
      poolW.add (some 300) [9] = ((a, 0, none), { poolW with slabs := poolW.slabs.set 1 sl' }) :=
  (claim_C3_add_algorithm poolW 300 [9]).1 1 (by decide) (by decide) (by decide)

/-- A sequence of `add` calls, each with its allocator choice and object;
returns the list of Go result triples and the final pool. -/
def addSeq (s : SlabPool) : List (Option Nat × List Nat) →
    List (Nat × Nat × Option AddErr) × SlabPool
  | [] => ([], s)
  | (al, ob) :: rest =>
      let r := s.add al ob
      let rs := addSeq r.2 rest
      (r.1 :: rs.1, rs.2)

/-- Occupancy shape of a partially filled first-fit bitmap: `k` occupied
slots then `m` free ones; the first free index is `k`. -/
theorem findIdx_partial_bits (k m : Nat) (hm : 0 < m) :
    (List.replicate k true ++ List.replicate m false).findIdx? (fun b => !b) = some k := by
  refine List.findIdx?_eq_some_iff_getElem.mpr ⟨?_, ?_, ?_⟩
  · simp
    omega
  · have hk : (List.replicate k true).length ≤ k := by simp
    rw [List.getElem_append_right hk]
    simp
  · intro j hj
    have hjl : j < (List.replicate k true).length := by simpa using hj
    rw [List.getElem_append_left hjl]
    simp

/-- Setting the first free bit of a partial bitmap extends the occupied
prefix by one. -/
theorem set_partial_bits (k m : Nat) (hm : 0 < m) :
    (List.replicate k true ++ List.replicate m false).set k true =
      List.replicate (k + 1) true ++ List.replicate (m - 1) false := by
  rw [List.set_append]
  have hk : ¬ k < (List.replicate k true).length := by simp
  rw [if_neg hk]
  have hkk : k - (List.replicate k true).length = 0 := by simp
  rw [hkk]
  cases m with
  | zero => exact absurd hm (by simp)
  | succ m' =>
      rw [List.replicate_succ]
      show List.replicate k true ++ true :: List.replicate m' false = _
      rw [List.replicate_succ' k true]
      simp

/-- `addObj` on a partially filled slab: the object lands in slot `k`
(the lowest free one). -/
theorem addObj_partial (sl : Slab) (obj : List Nat) (k m : Nat)
    (hbits : sl.bits = List.replicate k true ++ List.replicate m false) (hm : 0 < m) :
    sl.addObj obj = some (sl.slotAddr k,
      { sl with bits := sl.bits.set k true, data := sl.data.set k obj }) := by
  unfold Slab.addObj
  rw [hbits, findIdx_partial_bits k m hm]

/-- Result slab of a successful `addObj` into slot `k`. -/
def fillSlot (sl : Slab) (k : Nat) (ob : List Nat) : Slab :=
  { sl with bits := sl.bits.set k true, data := sl.data.set k ob }

theorem addObj_partial_fill (sl : Slab) (obj : List Nat) (k m : Nat)
    (hbits : sl.bits = List.replicate k true ++ List.replicate m false) (hm : 0 < m) :
    sl.addObj obj = some (sl.slotAddr k, fillSlot sl k obj) :=
  addObj_partial sl obj k m hbits hm

/-- Running `add` repeatedly against a pool holding a single partially
filled slab: as long as free slots remain, every call succeeds with the
sentinel slab address 0, no slab is created, and the occupied prefix
grows by one per call. -/
theorem addSeq_partial (inputs : List (Option Nat × List Nat)) :
    ∀ (s : SlabPool) (sl : Slab) (k : Nat),
      s.slabs = [sl] →
      sl.bits = List.replicate k true ++ List.replicate (s.objsPerSlab - k) false →
      k + inputs.length ≤ s.objsPerSlab →
      ∃ rs sl' s',
        addSeq s inputs = (rs, s') ∧
        rs.length = inputs.length ∧
        (∀ r ∈ rs, ∃ a, r = (a, 0, none)) ∧
        s'.slabs = [sl'] ∧ s'.objsPerSlab = s.objsPerSlab ∧ s'.objSize = s.objSize ∧
        sl'.bits = List.replicate (k + inputs.length) true ++
          List.replicate (s.objsPerSlab - (k + inputs.length)) false := by
  induction inputs with
  | nil =>
      intro s sl k hsl hbits hlen
      exact ⟨[], sl, s, rfl, rfl, by simp, hsl, rfl, rfl, by simpa using hbits⟩
  | cons p rest ih =>
      intro s sl k hsl hbits hlen
      obtain ⟨al, ob⟩ := p
      have hm : 0 < s.objsPerSlab - k := by
        simp only [List.length_cons] at hlen
        omega
      have haddObj := addObj_partial_fill sl ob k (s.objsPerSlab - k) hbits hm
      have hloop : addLoop ob s.slabs = some (sl.slotAddr k, [fillSlot sl k ob]) := by
        rw [hsl]
        unfold addLoop
        rw [haddObj]
      have hstep := @add_eq_of_loop_some s al ob (sl.slotAddr k) [fillSlot sl k ob] hloop
      have hbits' : (fillSlot sl k ob).bits =
          List.replicate (k + 1) true ++
            List.replicate (s.objsPerSlab - (k + 1)) false := by
        show sl.bits.set k true = _
        rw [hbits, set_partial_bits k (s.objsPerSlab - k) hm]
        have he : s.objsPerSlab - k - 1 = s.objsPerSlab - (k + 1) := by omega
        rw [he]
      have hlen' : (k + 1) + rest.length ≤ s.objsPerSlab := by
        simp only [List.length_cons] at hlen
        omega
      obtain ⟨rs, sl', s', hseq, hrslen, hok, hsl', hC, hsz, hbits''⟩ :=
        ih { s with slabs := [fillSlot sl k ob] } (fillSlot sl k ob) (k + 1) rfl hbits' hlen'
      refine ⟨(sl.slotAddr k, 0, none) :: rs, sl', s', ?_, by simpa using hrslen, ?_, hsl',
        hC, hsz, ?_⟩
      · show ((s.add al ob).1 :: (addSeq (s.add al ob).2 rest).1,
          (addSeq (s.add al ob).2 rest).2) = _
        rw [hstep]
        simp only []
        rw [hseq]
      · intro r hr
        rcases List.mem_cons.mp hr with rfl | hrr
        · exact ⟨sl.slotAddr k, rfl⟩
        · exact hok r hrr
      · rw [hbits'']
        have h1 : k + 1 + rest.length = k + (rest.length + 1) := by omega
        simp only [List.length_cons]
        rw [← h1]

/-- Composition of `addSeq` over concatenated input lists. -/
theorem addSeq_append (l1 l2 : List (Option Nat × List Nat)) :
    ∀ s : SlabPool, addSeq s (l1 ++ l2) =
      ((addSeq s l1).1 ++ (addSeq (addSeq s l1).2 l2).1, (addSeq (addSeq s l1).2 l2).2) := by
  induction l1 with
  | nil => intro s; rfl
  | cons p rest ih =>
      intro s
      obtain ⟨al, ob⟩ := p
      show ((s.add al ob).1 :: (addSeq (s.add al ob).2 (rest ++ l2)).1,
        (addSeq (s.add al ob).2 (rest ++ l2)).2) = _
      rw [ih (s.add al ob).2]
      rfl

/-- The very first `add` on an empty pool creates a slab at the
allocator's base and stores the object in its slot 0. -/
theorem add_first (sz C b : Nat) (ob : List Nat) (hC : 0 < C) :
    (NewSlabPool sz C).add (some b) ob =
      (((newSlab sz C b).slotAddr 0, b, none),
        { slabs := [fillSlot (newSlab sz C b) 0 ob], objSize := sz, objsPerSlab := C }) := by
  have hloop : addLoop ob (NewSlabPool sz C).slabs = none := rfl
  have hadd := newSlab_addObj sz C b ob hC
  have heq := add_eq_of_new_slab_ok hloop hadd
  have hpos : (NewSlabPool sz C).insertPos b = 0 := by
    unfold SlabPool.insertPos sortSearch
    rw [sortSearchAux]
    simp [NewSlabPool]
  rw [heq, hpos]
  rfl

/-- An `add` against a pool holding a single full slab takes the new-slab
path and returns the fresh base address as the creation signal. -/
theorem add_to_full (s : SlabPool) (sl : Slab) (b : Nat) (ob : List Nat)
    (hsl : s.slabs = [sl]) (hbits : sl.bits = List.replicate s.objsPerSlab true)
    (hC : 0 < s.objsPerSlab) :
    (s.add (some b) ob).1 = ((newSlab s.objSize s.objsPerSlab b).slotAddr 0, b, none) := by
  have hfull : ∀ x ∈ s.slabs, ¬ x.hasFreeSlot := by
    intro x hx
    rw [hsl] at hx
    rcases List.mem_cons.mp hx with rfl | hc
    · intro hfree
      obtain ⟨i, hi, hbit⟩ := hfree
      rw [hbits] at hi hbit
      rw [List.getD_eq_getElem _ _ hi, List.getElem_replicate] at hbit
      exact absurd hbit (by simp)
    · cases hc
  have hloop := (addLoop_eq_none_iff ob s.slabs).mpr hfull
  have hadd := newSlab_addObj s.objSize s.objsPerSlab b ob hC
  rw [add_eq_of_new_slab_ok hloop hadd]

/-- C7: starting from an empty pool with capacity `C > 0` per slab,
`C + 1` consecutive `add` calls with correctly sized objects behave as
follows: the 1st returns the (nonzero) base of a newly created slab, adds
2 through `C` succeed with the sentinel slab address 0 (no new slab), and
the `(C+1)`-th again returns a (nonzero) new-slab base — the pool accepts
exactly `C` adds per slab. -/
theorem claim_C7_capacity (C sz b1 b2 : Nat) (o1 oL : List Nat)
    (mids : List (Option Nat × List Nat))
    (hC : 0 < C) (hb1 : 0 < b1) (hb2 : 0 < b2)
    (hmids : mids.length = C - 1)
    (ho1 : o1.length = sz) (hoL : oL.length = sz)
    (hms : ∀ p ∈ mids, (p.2).length = sz) :
    ∃ rs s',
      addSeq (NewSlabPool sz C) ((some b1, o1) :: (mids ++ [(some b2, oL)])) = (rs, s') ∧
      rs.length = C + 1 ∧
      (∃ a1, rs.getD 0 (0, 0, none) = (a1, b1, none)) ∧
      (∀ i, 0 < i → i < C → ∃ a, rs.getD i (0, 0, none) = (a, 0, none)) ∧
      (∃ a2, rs.getD C (0, 0, none) = (a2, b2, none)) ∧
      b1 ≠ 0 ∧ b2 ≠ 0 := by
  have hfirst := add_first sz C b1 o1 hC
  have hbits1 : (fillSlot (newSlab sz C b1) 0 o1).bits =
      List.replicate 1 true ++ List.replicate (C - 1) false := by
    show (List.replicate C false).set 0 true = _
    have := set_partial_bits 0 C hC
    simpa using this
  obtain ⟨rsM, slM, sM, hseqM, hlenM, hokM, hslM, hCM, hszM, hbitsM⟩ :=
    addSeq_partial mids ((NewSlabPool sz C).add (some b1) o1).2
      (fillSlot (newSlab sz C b1) 0 o1) 1
      (by rw [hfirst])
      (by rw [hfirst]; exact hbits1)
      (by rw [hfirst]; show 1 + mids.length ≤ C; omega)
  simp only [hfirst] at hseqM hCM hszM hbitsM
  have h1C : 1 + mids.length = C := by omega
  rw [h1C] at hbitsM
  have hbitsM' : slM.bits = List.replicate sM.objsPerSlab true := by
    rw [hbitsM, hCM]
    simp
  have hCM' : 0 < sM.objsPerSlab := by rw [hCM]; exact hC
  have hlast := add_to_full sM slM b2 oL hslM hbitsM' hCM'
  refine ⟨((newSlab sz C b1).slotAddr 0, b1, none) ::
    (rsM ++ [((newSlab sM.objSize sM.objsPerSlab b2).slotAddr 0, b2, none)]),
    (sM.add (some b2) oL).2, ?_, ?_, ?_, ?_, ?_, by omega, by omega⟩
  · show (((NewSlabPool sz C).add (some b1) o1).1 ::
        (addSeq ((NewSlabPool sz C).add (some b1) o1).2 (mids ++ [(some b2, oL)])).1,
        (addSeq ((NewSlabPool sz C).add (some b1) o1).2 (mids ++ [(some b2, oL)])).2) = _
    rw [addSeq_append mids [(some b2, oL)] ((NewSlabPool sz C).add (some b1) o1).2]
    simp only [hfirst]
    rw [hseqM]
    show (((newSlab sz C b1).slotAddr 0, b1, none) ::
        (rsM ++ [(sM.add (some b2) oL).1]), (sM.add (some b2) oL).2) = _
    rw [hlast]
  · simp [hlenM, hmids]
    omega
  · exact ⟨(newSlab sz C b1).slotAddr 0, by simp⟩
  · intro i hi0 hiC
    obtain ⟨j, rfl⟩ : ∃ j, i = j + 1 := ⟨i - 1, by omega⟩
    rw [List.getD_cons_succ]
    have hj : j < rsM.length := by rw [hlenM, hmids]; omega
    rw [List.getD_append _ _ _ j hj]
    have hmem : rsM.getD j (0, 0, none) ∈ rsM := by
      rw [List.getD_eq_getElem _ _ hj]
      exact List.getElem_mem hj
    exact hokM _ hmem
  · refine ⟨(newSlab sM.objSize sM.objsPerSlab b2).slotAddr 0, ?_⟩
    have hCs : C = rsM.length + 1 := by rw [hlenM, hmids]; omega
    rw [hCs, List.getD_cons_succ,
      List.getD_append_right _ _ _ _ (Nat.le_refl rsM.length)]
    simp

theorem claim_C7_capacity_witness :
    ∃ rs s',
      addSeq (NewSlabPool 1 2)
          ((some 100, [1]) :: ([(none, [2])] ++ [(some 200, [3])])) = (rs, s') ∧
      rs.length = 2 + 1 ∧
      (∃ a1, rs.getD 0 (0, 0, none) = (a1, 100, none)) ∧
      (∀ i, 0 < i → i < 2 → ∃ a, rs.getD i (0, 0, none) = (a, 0, none)) ∧
      (∃ a2, rs.getD 2 (0, 0, none) = (a2, 200, none)) ∧
      (100 : Nat) ≠ 0 ∧ (200 : Nat) ≠ 0 :=
  claim_C7_capacity 2 1 100 200 [1] [3] [(none, [2])] (by decide) (by decide) (by decide)
    (by decide) (by decide) (by decide) (by decide)

theorem slabScan_eq_none_iff (sl : Slab) (z : Nat) (t : List Nat) (c i : Nat) :
    slabScan sl z t c i = none ↔
      ∀ j, i ≤ j → j < c → slotMatches sl z t j = false := by
  induction i using slabScan.induct sl z t c with
  | case1 i hic hm =>
      rw [slabScan]
      simp only [hic, if_true, hm, if_true]
      constructor
      · intro h; exact absurd h (by simp)
      · intro h
        have := h i (Nat.le_refl i) hic
        rw [hm] at this
        exact absurd this (by simp)
  | case2 i hic hm ih =>
      rw [slabScan]
      have hm' : slotMatches sl z t i = false := by simpa using hm
      simp only [hic, if_true, hm', Bool.false_eq_true, if_false]
      rw [ih]
      constructor
      · intro h j hij hjc
        rcases Nat.eq_or_lt_of_le hij with rfl | hlt
        · exact hm'
        · exact h j hlt hjc
      · intro h j hij hjc
        exact h j (Nat.le_of_lt hij) hjc
  | case3 i hic =>
      rw [slabScan]
      simp only [hic, if_false]
      constructor
      · intro _ j hij hjc
        omega
      · intro _
        trivial

theorem slabScan_eq_some_iff (sl : Slab) (z : Nat) (t : List Nat) (c i : Nat) (a : Nat) :
    slabScan sl z t c i = some a ↔
      ∃ j, i ≤ j ∧ j < c ∧ slotMatches sl z t j = true ∧
        (∀ j2, i ≤ j2 → j2 < j → slotMatches sl z t j2 = false) ∧
        a = sl.slotAddr j := by
  induction i using slabScan.induct sl z t c with
  | case1 i hic hm =>
      rw [slabScan]
      simp only [hic, if_true, hm, if_true]
      constructor
      · intro h
        refine ⟨i, Nat.le_refl i, hic, hm, by omega, ?_⟩
        simpa using h.symm
      · rintro ⟨j, hij, hjc, hjm, hmin, rfl⟩
        rcases Nat.eq_or_lt_of_le hij with rfl | hlt
        · rfl
        · have := hmin i (Nat.le_refl i) hlt
          rw [hm] at this
          exact absurd this (by simp)
  | case2 i hic hm ih =>
      rw [slabScan]
      have hm' : slotMatches sl z t i = false := by simpa using hm
      simp only [hic, if_true, hm', Bool.false_eq_true, if_false]
      rw [ih]
      constructor
      · rintro ⟨j, hij, hjc, hjm, hmin, rfl⟩
        refine ⟨j, ?_, hjc, hjm, ?_, rfl⟩
        · omega
        · intro j2 hij2 hj2
          rcases Nat.eq_or_lt_of_le hij2 with rfl | hlt
          · exact hm'
          · exact hmin j2 hlt hj2
      · rintro ⟨j, hij, hjc, hjm, hmin, rfl⟩
        have hne : i ≠ j := by
          rintro rfl
          rw [hm'] at hjm
          exact absurd hjm (by simp)
        refine ⟨j, by omega, hjc, hjm, ?_, rfl⟩
        intro j2 hij2 hj2
        exact hmin j2 (Nat.le_of_lt hij2) hj2
  | case3 i hic =>
      rw [slabScan]
      simp only [hic, if_false]
      constructor
      · intro h; exact absurd h (by simp)
      · rintro ⟨j, hij, hjc, _⟩
        omega

theorem searchSlab_none_iff (sl : Slab) (c z : Nat) (t : List Nat) :
    sl.searchSlab c z t = none ↔ ∀ i, i < c → slotMatches sl z t i = false := by
  unfold Slab.searchSlab
  rw [slabScan_eq_none_iff]
  constructor
  · intro h i hic
    exact h i (Nat.zero_le i) hic
  · intro h i _ hic
    exact h i hic

theorem searchSlab_some_iff (sl : Slab) (c z : Nat) (t : List Nat) (a : Nat) :
    sl.searchSlab c z t = some a ↔
      ∃ i, i < c ∧ slotMatches sl z t i = true ∧
        (∀ i2, i2 < i → slotMatches sl z t i2 = false) ∧ a = sl.slotAddr i := by
  unfold Slab.searchSlab
  rw [slabScan_eq_some_iff]
  constructor
  · rintro ⟨j, _, hjc, hjm, hmin, rfl⟩
    exact ⟨j, hjc, hjm, fun i2 hi2 => hmin i2 (Nat.zero_le i2) hi2, rfl⟩
  · rintro ⟨j, hjc, hjm, hmin, rfl⟩
    exact ⟨j, Nat.zero_le j, hjc, hjm, fun i2 _ hi2 => hmin i2 hi2, rfl⟩

theorem searchSlabs_none_iff (c z : Nat) (t : List Nat) (l : List Slab) :
    searchSlabs c z t l = none ↔ ∀ sl ∈ l, sl.searchSlab c z t = none := by
  induction l with
  | nil => simp [searchSlabs]
  | cons sl rest ih =>
      unfold searchSlabs
      cases hsl : sl.searchSlab c z t with
      | some a =>
          simp only []
          constructor
          · intro h; exact absurd h (by simp)
          · intro h
            have := h sl (List.mem_cons_self sl rest)
            rw [hsl] at this
            exact absurd this (by simp)
      | none =>
          simp only []
          rw [ih]
          constructor
          · intro h x hx
            rcases List.mem_cons.mp hx with rfl | hxr
            · exact hsl
            · exact h x hxr
          · intro h x hx
            exact h x (List.mem_cons_of_mem sl hx)

theorem searchSlabs_some_iff (c z : Nat) (t : List Nat) (l : List Slab) (a : Nat) :
    searchSlabs c z t l = some a ↔
      ∃ k, k < l.length ∧ (l.getD k defaultSlab).searchSlab c z t = some a ∧
        ∀ k2, k2 < k → (l.getD k2 defaultSlab).searchSlab c z t = none := by
  induction l with
  | nil =>
      simp [searchSlabs]
  | cons sl rest ih =>
      unfold searchSlabs
      cases hsl : sl.searchSlab c z t with
      | some a0 =>
          simp only []
          constructor
          · intro h
            simp only [Option.some.injEq] at h
            subst h
            refine ⟨0, by simp, by rw [List.getD_cons_zero]; exact hsl, ?_⟩
            intro k2 hk2
            omega
          · rintro ⟨k, hk, hfound, hmin⟩
            cases k with
            | zero =>
                rw [List.getD_cons_zero] at hfound
                rw [hsl] at hfound
                exact hfound
            | succ q =>
                have := hmin 0 (Nat.succ_pos q)
                rw [List.getD_cons_zero, hsl] at this
                exact absurd this (by simp)
      | none =>
          simp only []
          rw [ih]
          constructor
          · rintro ⟨k, hk, hfound, hmin⟩
            refine ⟨k + 1, by simpa using Nat.succ_lt_succ hk, ?_, ?_⟩
            · rw [List.getD_cons_succ]; exact hfound
            · intro k2 hk2
              cases k2 with
              | zero => rw [List.getD_cons_zero]; exact hsl
              | succ q =>
                  rw [List.getD_cons_succ]
                  exact hmin q (by omega)
          · rintro ⟨k, hk, hfound, hmin⟩
            cases k with
            | zero =>
                rw [List.getD_cons_zero, hsl] at hfound
                exact absurd hfound (by simp)
            | succ q =>
                rw [List.getD_cons_succ] at hfound
                refine ⟨q, by simpa using hk, hfound, ?_⟩
                intro k2 hk2
                have := hmin (k2 + 1) (Nat.succ_lt_succ hk2)
                rwa [List.getD_cons_succ] at this

/-- Spec-level description of target `target` matching occupied slot `i`
of slab `k` of the pool: the slot's occupancy bit is set and its first
`objSize` bytes equal the target's. -/
def slotMatchesP (s : SlabPool) (k i : Nat) (target : List Nat) : Prop :=
  (s.slabs.getD k defaultSlab).bits.getD i false = true ∧
  ∀ j, j < s.objSize →
    ((s.slabs.getD k defaultSlab).data.getD i []).getD j 0 = target.getD j 0

instance (s : SlabPool) (k i : Nat) (target : List Nat) :
    Decidable (slotMatchesP s k i target) := by
  unfold slotMatchesP; infer_instance

theorem slotMatchesP_iff (s : SlabPool) (k i : Nat) (target : List Nat) :
    slotMatchesP s k i target ↔
      slotMatches (s.slabs.getD k defaultSlab) s.objSize target i = true := by
  unfold slotMatchesP slotMatches bytesMatch
  simp [List.all_eq_true, List.mem_range]

/-- C4: `search` returns not-found without scanning when the target's
length differs from the pool's object size; otherwise it scans slabs in
sequence order and slots in ascending index order, considering only slots
with the occupancy bit set, and returns the address of the first slot
whose bytes equal the target; with no occupied matching slot anywhere it
returns not-found. -/
theorem claim_C4_search (s : SlabPool) (target : List Nat) :
    (target.length ≠ s.objSize → s.search target = none) ∧
    (target.length = s.objSize →
      (s.search target = none ↔
        ∀ k, k < s.slabs.length → ∀ i, i < s.objsPerSlab →
          ¬ slotMatchesP s k i target) ∧
      (∀ a, s.search target = some a →
        ∃ k i, k < s.slabs.length ∧ i < s.objsPerSlab ∧ slotMatchesP s k i target ∧
          a = (s.slabs.getD k defaultSlab).slotAddr i ∧
          (∀ k2, k2 < k → ∀ i2, i2 < s.objsPerSlab → ¬ slotMatchesP s k2 i2 target) ∧
          (∀ i2, i2 < i → ¬ slotMatchesP s k i2 target))) := by
  constructor
  · intro hne
    unfold SlabPool.search
    rw [if_pos hne]
  · intro hlen
    have hsearch : s.search target = searchSlabs s.objsPerSlab s.objSize target s.slabs := by
      unfold SlabPool.search
      rw [if_neg (by omega)]
    constructor
    · rw [hsearch, searchSlabs_none_iff]
      constructor
      · intro h k hk i hi
        rw [slotMatchesP_iff]
        have hmem : s.slabs.getD k defaultSlab ∈ s.slabs := by
          rw [List.getD_eq_getElem _ _ hk]
          exact s.slabs.getElem_mem hk
        have := (searchSlab_none_iff _ _ _ _).mp (h _ hmem) i hi
        rw [this]
        simp
      · intro h sl hmem
        rw [searchSlab_none_iff]
        intro i hi
        rcases List.mem_iff_getElem.mp hmem with ⟨k, hk, rfl⟩
        have := h k hk i hi
        rw [slotMatchesP_iff] at this
        have hgd : s.slabs.getD k defaultSlab = s.slabs[k] :=
          List.getD_eq_getElem _ _ hk
        rw [hgd] at this
        simpa using this
    · intro a ha
      rw [hsearch] at ha
      obtain ⟨k, hk, hfound, hminK⟩ := (searchSlabs_some_iff _ _ _ _ _).mp ha
      obtain ⟨i, hi, him, hminI, rfl⟩ := (searchSlab_some_iff _ _ _ _ _).mp hfound
      refine ⟨k, i, hk, hi, ?_, rfl, ?_, ?_⟩
      · rw [slotMatchesP_iff]
        exact him
      · intro k2 hk2 i2 hi2
        rw [slotMatchesP_iff]
        have := (searchSlab_none_iff _ _ _ _).mp (hminK k2 hk2) i2 hi2
        rw [this]
        simp
      · intro i2 hi2
        rw [slotMatchesP_iff]
        rw [hminI i2 hi2]
        simp

theorem claim_C4_search_witness :
    ([7, 8] : List Nat).length ≠ poolW.objSize ∧ poolW.search [7, 8] = none ∧
    ([9] : List Nat).length = poolW.objSize ∧
    (poolW.search [9] = none ↔
      ∀ k, k < poolW.slabs.length → ∀ i, i < poolW.objsPerSlab →
        ¬ slotMatchesP poolW k i [9]) := by
  refine ⟨by decide, (claim_C4_search poolW [7, 8]).1 (by decide), by decide,
    ((claim_C4_search poolW [9]).2 (by decide)).1⟩

theorem getLastD_mem {l : List Nat} (h : l ≠ []) (d : Nat) : l.getLastD d ∈ l := by
  rw [List.getLastD_eq_getLast?, List.getLast?_eq_getLast l h]
  simp only [Option.getD_some]
  exact List.getLast_mem h

/-- Every address a slab task reports lies inside that slab (it is a slot
address of the slab), hence is positive when the base is. -/
theorem slabTargetMatches_mem_pos {c z : Nat} {sl : Slab} {t : List Nat} {a : Nat}
    (ha : a ∈ slabTargetMatches c z sl t) (hbase : 0 < sl.base) : 0 < a := by
  unfold slabTargetMatches at ha
  rcases List.mem_map.mp ha with ⟨i, _, rfl⟩
  unfold Slab.slotAddr
  omega

/-- C5 as stated is false on the code: `searchBatched` never checks the
searched objects' lengths, so a size-mismatched target whose first
`objSize` bytes coincide with an occupied slot's bytes is reported as
found.  Concretely: object size 1, one occupied slot holding byte 7, and
the two-byte target `[7, 9]` — the only possible result list is `[201]`
(the slot's address), not `[0]`. -/
theorem claim_C5_counterexample :
    ¬ (∀ (s : SlabPool) (targets : List (List Nat)) (res : List Nat) (k : Nat),
        searchBatchedOutcome s targets res → k < targets.length →
        (targets.getD k []).length ≠ s.objSize → res.getD k 0 = 0) := by
  intro h
  have := h poolFull [[7, 9]] [201] 0 (by decide) (by decide) (by decide)
  exact absurd this (by decide)

/-- C5 (amended): `searchBatched` gives a target the entry 0 exactly when
no occupied slot agrees with it on the byte positions `0..objSize-1` (the
comparison `searchBatched` actually performs); the target's length is not
consulted, so size mismatch is not specially treated. -/
theorem claim_C5_batched_size_mismatch (s : SlabPool) (targets : List (List Nat))
    (res : List Nat) (k : Nat)
    (hbase : ∀ sl ∈ s.slabs, 0 < sl.base)
    (hout : searchBatchedOutcome s targets res) (hk : k < targets.length) :
    res.getD k 0 = 0 ↔
      ∀ sl ∈ s.slabs,
        slabTargetMatches s.objsPerSlab s.objSize sl (targets.getD k []) = [] := by
  obtain ⟨hnp, hlen, hcases⟩ := hout
  rcases hcases k hk with ⟨hempty, hzero⟩ | ⟨sl, hmem, hne, hval⟩
  · constructor
    · intro _; exact hempty
    · intro _; exact hzero
  · constructor
    · intro h0
      exfalso
      have hmatch := getLastD_mem hne 0
      have hpos := slabTargetMatches_mem_pos hmatch (hbase sl hmem)
      omega
    · intro hall
      exact absurd (hall sl hmem) hne

theorem claim_C5_batched_size_mismatch_witness :
    ([201] : List Nat).getD 0 0 = 0 ↔
      ∀ sl ∈ poolFull.slabs,
        slabTargetMatches poolFull.objsPerSlab poolFull.objSize sl
          ([[7, 9]].getD 0 []) = [] :=
  claim_C5_batched_size_mismatch poolFull [[7, 9]] [201] 0 (by decide) (by decide)
    (by decide)

theorem cmpGoAux_ne_none (stored target : List Nat) :
    ∀ fuel l, l + fuel ≤ target.length → cmpGoAux stored target fuel l ≠ none := by
  intro fuel
  induction fuel with
  | zero => intro l _; simp [cmpGoAux]
  | succ f ih =>
      intro l hl
      unfold cmpGoAux
      have hllen : l < target.length := by omega
      rw [List.getElem?_eq_getElem hllen]
      simp only []
      by_cases he : stored.getD l 0 = target[l]
      · rw [if_pos he]
        exact ih (l + 1) (by omega)
      · rw [if_neg he]
        simp

theorem cmpGoAux_some_true_iff (stored target : List Nat) :
    ∀ fuel l, l + fuel ≤ target.length →
      (cmpGoAux stored target fuel l = some true ↔
        ∀ j, l ≤ j → j < l + fuel → stored.getD j 0 = target.getD j 0) := by
  intro fuel
  induction fuel with
  | zero =>
      intro l _
      simp only [cmpGoAux]
      constructor
      · intro _ j hj hjl
        omega
      · intro _
        trivial
  | succ f ih =>
      intro l hl
      unfold cmpGoAux
      have hllen : l < target.length := by omega
      rw [List.getElem?_eq_getElem hllen]
      simp only []
      by_cases he : stored.getD l 0 = target[l]
      · rw [if_pos he, ih (l + 1) (by omega)]
        constructor
        · intro h j hlj hjf
          rcases Nat.eq_or_lt_of_le hlj with rfl | hlt
          · rw [he, List.getD_eq_getElem _ _ hllen]
          · exact h j hlt (by omega)
        · intro h j hlj hjf
          exact h j (by omega) (by omega)
      · rw [if_neg he]
        constructor
        · intro h
          exact absurd h (by simp)
        · intro h
          exfalso
          have := h l (Nat.le_refl l) (by omega)
          rw [List.getD_eq_getElem _ _ hllen] at this
          exact he this
  
theorem cmpGo_some_true_iff (stored target : List Nat) (z : Nat) (hz : z ≤ target.length) :
    cmpGo stored target z 0 = some true ↔
      ∀ j, j < z → stored.getD j 0 = target.getD j 0 := by
  unfold cmpGo
  have h0 : z - 0 = z := rfl
  rw [h0, cmpGoAux_some_true_iff stored target z 0 (by omega)]
  constructor
  · intro h j hj
    exact h j (Nat.zero_le j) (by omega)
  · intro h j _ hj
    exact h j (by omega)

theorem cmpGo_ne_none (stored target : List Nat) (z : Nat) (hz : z ≤ target.length) :
    cmpGo stored target z 0 ≠ none := by
  unfold cmpGo
  exact cmpGoAux_ne_none stored target (z - 0) 0 (by omega)

/-- For a target with at least `objSize` bytes, the comparison the
batched search performs agrees with the one `search` performs. -/
theorem cmpGo_eq_bytesMatch (stored target : List Nat) (z : Nat) (hz : z ≤ target.length) :
    (cmpGo stored target z 0 == some true) = bytesMatch stored target z := by
  have hbm : bytesMatch stored target z = true ↔
      ∀ j, j < z → stored.getD j 0 = target.getD j 0 := by
    unfold bytesMatch
    simp [List.all_eq_true, List.mem_range]
  cases hb : bytesMatch stored target z with
  | true =>
      have := (cmpGo_some_true_iff stored target z hz).mpr (hbm.mp hb)
      rw [this]
      rfl
  | false =>
      obtain ⟨b, hbeq⟩ := Option.ne_none_iff_exists.mp (cmpGo_ne_none stored target z hz)
      cases b with
      | true =>
          exfalso
          have := (cmpGo_some_true_iff stored target z hz).mp hbeq.symm
          rw [hbm.mpr this] at hb
          exact absurd hb (by simp)
      | false =>
          rw [← hbeq]
          rfl

/-- With a correctly sized target, the batched per-slab match list is the
list of slot addresses `search` itself would accept in that slab. -/
theorem slabTargetMatches_eq_filter (c z : Nat) (sl : Slab) (t : List Nat)
    (hz : z ≤ t.length) :
    slabTargetMatches c z sl t =
      ((List.range c).filter (slotMatches sl z t)).map sl.slotAddr := by
  unfold slabTargetMatches
  congr 1
  apply List.filter_congr
  intro i _
  unfold slotMatches
  rw [cmpGo_eq_bytesMatch _ _ _ hz]

/-- `search` (with a correctly sized target) misses exactly when no
occupied slot matches. -/
theorem search_none_iff (s : SlabPool) (t : List Nat) (hlen : t.length = s.objSize) :
    s.search t = none ↔
      ∀ k, k < s.slabs.length → ∀ i, i < s.objsPerSlab → ¬ slotMatchesP s k i t := by
  have hsearch : s.search t = searchSlabs s.objsPerSlab s.objSize t s.slabs := by
    unfold SlabPool.search
    rw [if_neg (by omega)]
  rw [hsearch, searchSlabs_none_iff]
  constructor
  · intro h k hk i hi
    rw [slotMatchesP_iff]
    have hmem : s.slabs.getD k defaultSlab ∈ s.slabs := by
      rw [List.getD_eq_getElem _ _ hk]
      exact s.slabs.getElem_mem hk
    have := (searchSlab_none_iff _ _ _ _).mp (h _ hmem) i hi
    rw [this]
    simp
  · intro h sl hmem
    rw [searchSlab_none_iff]
    intro i hi
    rcases List.mem_iff_getElem.mp hmem with ⟨k, hk, rfl⟩
    have := h k hk i hi
    rw [slotMatchesP_iff] at this
    have hgd : s.slabs.getD k defaultSlab = s.slabs[k] := List.getD_eq_getElem _ _ hk
    rw [hgd] at this
    simpa using this

theorem filter_range_singleton (p : Nat → Bool) :
    ∀ c i, i < c → p i = true → (∀ j, j < c → p j = true → j = i) →
      (List.range c).filter p = [i] := by
  intro c
  induction c with
  | zero => intro i hi; omega
  | succ c ih =>
      intro i hi hp huniq
      rw [List.range_succ, List.filter_append]
      by_cases hic : i = c
      · subst hic
        have h1 : (List.range i).filter p = [] := by
          rw [List.filter_eq_nil_iff]
          intro a ha
          have halt : a < i := List.mem_range.mp ha
          intro hpa
          have := huniq a (by omega) hpa
          omega
        rw [h1]
        simp [hp]
      · have hi' : i < c := by omega
        rw [ih i hi' hp (fun j hj hpj => huniq j (by omega) hpj)]
        have hpc : p c = false := by
          cases hpcv : p c with
          | false => rfl
          | true =>
              have := huniq c (by omega) hpcv
              omega
        simp [hpc]

/-- When exactly one occupied slot matches, `search` returns its address. -/
theorem search_unique_match (s : SlabPool) (t : List Nat) (k i : Nat)
    (hlen : t.length = s.objSize)
    (hk : k < s.slabs.length) (hi : i < s.objsPerSlab)
    (hm : slotMatchesP s k i t)
    (huniq : ∀ k2 i2, k2 < s.slabs.length → i2 < s.objsPerSlab →
      slotMatchesP s k2 i2 t → k2 = k ∧ i2 = i) :
    s.search t = some ((s.slabs.getD k defaultSlab).slotAddr i) := by
  have hsearch : s.search t = searchSlabs s.objsPerSlab s.objSize t s.slabs := by
    unfold SlabPool.search
    rw [if_neg (by omega)]
  rw [hsearch]
  rw [searchSlabs_some_iff]
  refine ⟨k, hk, ?_, ?_⟩
  · rw [searchSlab_some_iff]
    refine ⟨i, hi, (slotMatchesP_iff s k i t).mp hm, ?_, rfl⟩
    intro i2 hi2
    cases hv : slotMatches (s.slabs.getD k defaultSlab) s.objSize t i2 with
    | false => rfl
    | true =>
        have := (huniq k i2 hk (by omega) ((slotMatchesP_iff s k i2 t).mpr hv)).2
        omega
  · intro k2 hk2
    rw [searchSlab_none_iff]
    intro i2 hi2
    cases hv : slotMatches (s.slabs.getD k2 defaultSlab) s.objSize t i2 with
    | false => rfl
    | true =>
        have := (huniq k2 i2 (by omega) hi2 ((slotMatchesP_iff s k2 i2 t).mpr hv)).1
        omega

/-- With a correctly sized target, a slab's batched match list is
nonempty exactly when one of its occupied slots matches. -/
theorem slabTargetMatches_ne_nil_iff (c z : Nat) (sl : Slab) (t : List Nat)
    (hz : z ≤ t.length) :
    slabTargetMatches c z sl t ≠ [] ↔
      ∃ i, i < c ∧ slotMatches sl z t i = true := by
  rw [slabTargetMatches_eq_filter c z sl t hz]
  rw [Ne, List.map_eq_nil_iff, List.filter_eq_nil_iff]
  constructor
  · intro h
    by_contra hno
    push_neg at hno
    refine h ?_
    intro a ha
    have halt : a < c := List.mem_range.mp ha
    intro hpa
    exact absurd hpa (by simpa using hno a halt)
  · rintro ⟨i, hic, him⟩ h
    exact absurd him (by simpa using h i (List.mem_range.mpr hic))

/-- C6 as stated is false on the code: with object size 1, an occupied
slot holding byte 7 and the two-byte target `[7, 9]`, `search` reports
not-found (length check) while `searchBatched` reports the slot's
address, so the found/not-found outcomes disagree. -/
theorem claim_C6_counterexample :
    ¬ (∀ (s : SlabPool) (target : List Nat) (res : List Nat),
        searchBatchedOutcome s [target] res →
        (res.getD 0 0 ≠ 0 ↔ (s.search target).isSome = true)) := by
  intro h
  have h2 := (h poolFull [7, 9] [201] (by decide)).mp (by decide)
  have h3 : poolFull.search [7, 9] = none := by decide
  rw [h3] at h2
  exact absurd h2 (by decide)

/-- C6 (amended): for a target whose length equals the pool's object
size, `search` and `searchBatched([target])` agree: the batched result
has length 1, its entry is nonzero exactly when `search` finds the
target, and when the target occupies exactly one slot both return that
slot's address.  (Slab base addresses are assumed positive, as real
mapped regions are.) -/
theorem claim_C6_search_batched_agree (s : SlabPool) (target : List Nat) (res : List Nat)
    (hlen : target.length = s.objSize)
    (hbase : ∀ sl ∈ s.slabs, 0 < sl.base)
    (hout : searchBatchedOutcome s [target] res) :
    res.length = 1 ∧
    (res.getD 0 0 ≠ 0 ↔ (s.search target).isSome = true) ∧
    (∀ k i, k < s.slabs.length → i < s.objsPerSlab → slotMatchesP s k i target →
      (∀ k2 i2, k2 < s.slabs.length → i2 < s.objsPerSlab → slotMatchesP s k2 i2 target →
        k2 = k ∧ i2 = i) →
      res.getD 0 0 = (s.slabs.getD k defaultSlab).slotAddr i ∧
      s.search target = some ((s.slabs.getD k defaultSlab).slotAddr i)) := by
  have hz : s.objSize ≤ target.length := by omega
  obtain ⟨hnp, hreslen, hcases⟩ := hout
  have hcase0 := hcases 0 (by simp)
  simp only [List.getD_cons_zero] at hcase0
  have hempty_nomatch :
      (∀ sl ∈ s.slabs, slabTargetMatches s.objsPerSlab s.objSize sl target = []) →
      ∀ k, k < s.slabs.length → ∀ i, i < s.objsPerSlab → ¬ slotMatchesP s k i target := by
    intro hempty k hk i hi hm
    have hmem : s.slabs.getD k defaultSlab ∈ s.slabs := by
      rw [List.getD_eq_getElem _ _ hk]
      exact s.slabs.getElem_mem hk
    have := hempty _ hmem
    have hne := (slabTargetMatches_ne_nil_iff s.objsPerSlab s.objSize _ target hz).mpr
      ⟨i, hi, (slotMatchesP_iff s k i target).mp hm⟩
    exact hne this
  have hmatch_of_mem :
      ∀ sl ∈ s.slabs, slabTargetMatches s.objsPerSlab s.objSize sl target ≠ [] →
      ∃ k i, k < s.slabs.length ∧ i < s.objsPerSlab ∧ slotMatchesP s k i target ∧
        s.slabs.getD k defaultSlab = sl := by
    intro sl hmem hne
    rcases List.mem_iff_getElem.mp hmem with ⟨k, hk, hks⟩
    obtain ⟨i, hi, him⟩ :=
      (slabTargetMatches_ne_nil_iff s.objsPerSlab s.objSize sl target hz).mp hne
    have hgd : s.slabs.getD k defaultSlab = sl := by
      rw [List.getD_eq_getElem _ _ hk, hks]
    refine ⟨k, i, hk, hi, ?_, hgd⟩
    rw [slotMatchesP_iff, hgd]
    exact him
  refine ⟨by simpa using hreslen, ?_, ?_⟩
  · constructor
    · intro hne0
      rcases hcase0 with ⟨hempty, hzero⟩ | ⟨sl, hmem, hneL, hval⟩
      · exact absurd hzero hne0
      · by_contra hno
        have hnone := Option.not_isSome_iff_eq_none.mp hno
        have hnomatch := (search_none_iff s target hlen).mp hnone
        obtain ⟨k, i, hk, hi, hm, _⟩ := hmatch_of_mem sl hmem hneL
        exact hnomatch k hk i hi hm
    · intro hsome
      rcases hcase0 with ⟨hempty, hzero⟩ | ⟨sl, hmem, hneL, hval⟩
      · exfalso
        have hnone := (search_none_iff s target hlen).mpr (hempty_nomatch hempty)
        rw [hnone] at hsome
        exact absurd hsome (by simp)
      · rw [hval]
        have hmm := getLastD_mem hneL 0
        have hpos := slabTargetMatches_mem_pos hmm (hbase sl hmem)
        omega
  · intro k i hk hi hm huniq
    have hsingle : slabTargetMatches s.objsPerSlab s.objSize
        (s.slabs.getD k defaultSlab) target = [(s.slabs.getD k defaultSlab).slotAddr i] := by
      rw [slabTargetMatches_eq_filter _ _ _ _ hz]
      have hfil := filter_range_singleton
        (slotMatches (s.slabs.getD k defaultSlab) s.objSize target) s.objsPerSlab i hi
        ((slotMatchesP_iff s k i target).mp hm)
        (fun j hj hpj => (huniq k j hk hj ((slotMatchesP_iff s k j target).mpr hpj)).2)
      rw [hfil]
      rfl
    have hsearch := search_unique_match s target k i hlen hk hi hm huniq
    refine ⟨?_, hsearch⟩
    rcases hcase0 with ⟨hempty, hzero⟩ | ⟨sl, hmem, hneL, hval⟩
    · exfalso
      have hmemk : s.slabs.getD k defaultSlab ∈ s.slabs := by
        rw [List.getD_eq_getElem _ _ hk]
        exact s.slabs.getElem_mem hk
      have := hempty _ hmemk
      rw [hsingle] at this
      exact absurd this (by simp)
    · obtain ⟨k2, i2, hk2, hi2, hm2, hgd2⟩ := hmatch_of_mem sl hmem hneL
      have hkk := (huniq k2 i2 hk2 hi2 hm2).1
      subst hkk
      rw [hval, ← hgd2, hsingle]
      rfl

theorem claim_C6_search_batched_agree_witness :
    ([201] : List Nat).length = 1 ∧
    (([201] : List Nat).getD 0 0 ≠ 0 ↔ (poolFull.search [7]).isSome = true) ∧
    (∀ k i, k < poolFull.slabs.length → i < poolFull.objsPerSlab →
      slotMatchesP poolFull k i [7] →
      (∀ k2 i2, k2 < poolFull.slabs.length → i2 < poolFull.objsPerSlab →
        slotMatchesP poolFull k2 i2 [7] → k2 = k ∧ i2 = i) →
      ([201] : List Nat).getD 0 0 = (poolFull.slabs.getD k defaultSlab).slotAddr i ∧
      poolFull.search [7] = some ((poolFull.slabs.getD k defaultSlab).slotAddr i)) :=
  claim_C6_search_batched_agree poolFull [7] [201] (by decide) (by decide) (by decide)
